import Mathlib

set_option maxHeartbeats 1000000

/-!
Shallow embedding of the real-time room-membership and signaling layer of
`src/index.js` (socket handlers `join-room`, `offer`, `answer`,
`ice-candidate`, `disconnect`) together with the room store it consults
(`Room.findById`, `Room.findByIdAndUpdate`, `Room.findByIdAndDelete`).

JavaScript `Map`s (which preserve insertion order) are embedded as
association lists with unique keys maintained by the operations themselves;
`socket` objects are records carrying the ad-hoc fields `roomId` and
`userName` that the handlers attach, plus the socket.io-managed `connected`
flag.  Each handler is a pure function from server state and event payload
to the new server state and the list of emissions (socket emits and calls
into the Mongo-backed room store, in program order).
-/

namespace VC

/-- A participant record as built at `src/index.js:91`:
`roomUsers.set(socket.id, { userName, socketId: socket.id })`. -/
structure Participant where
  socketId : String
  userName : String
  deriving DecidableEq, Repr

/-- A live (or just-closed) socket.  `sid` is `socket.id`; `roomId` and
`userName` are the ad-hoc fields assigned at `src/index.js:83-84`; the code
never clears them, so they survive disconnection.  `connected` is the
socket.io transport state: it is true from accept until transport close. -/
structure Socket where
  sid : String
  connected : Bool
  roomId : Option String
  userName : Option String
  deriving DecidableEq, Repr

/-- JS `Map.has`. -/
def mapHas {α : Type} (m : List (String × α)) (k : String) : Bool :=
  m.any (fun e => e.1 == k)

/-- JS `Map.get` (as an `Option`). -/
def mapGet {α : Type} (m : List (String × α)) (k : String) : Option α :=
  (m.find? (fun e => e.1 == k)).map (fun e => e.2)

/-- JS `Map.set`: overwrite in place when the key is present, else append
(JS `Map` preserves insertion order). -/
def mapSet {α : Type} (m : List (String × α)) (k : String) (v : α) :
    List (String × α) :=
  if mapHas m k then m.map (fun e => if e.1 == k then (k, v) else e)
  else m ++ [(k, v)]

/-- JS `Map.delete`. -/
def mapDelete {α : Type} (m : List (String × α)) (k : String) :
    List (String × α) :=
  m.filter (fun e => e.1 != k)

/-- The per-room user map (`roomUsers`), keyed by socket id. -/
def usersHas (ps : List Participant) (sid : String) : Bool :=
  ps.any (fun p => p.socketId == sid)

/-- `roomUsers.set(socket.id, { userName, socketId })`. -/
def usersSet (ps : List Participant) (p : Participant) : List Participant :=
  if usersHas ps p.socketId then
    ps.map (fun q => if q.socketId == p.socketId then p else q)
  else ps ++ [p]

/-- `roomUsers.delete(socket.id)`. -/
def usersDelete (ps : List Participant) (sid : String) : List Participant :=
  ps.filter (fun p => p.socketId != sid)

/-- A document of the external room store, as far as the socket layer can
observe it: its lookup id and the `isActive` flag (set to `false` by the
HTTP delete route `src/routes/rooms.js:345-347`). -/
structure RoomRec where
  id : String
  isActive : Bool
  deriving DecidableEq, Repr

/-- `Room.findById(roomId)` : returns the document whenever it exists,
regardless of `isActive` (`src/index.js:59`). -/
def findRoom (store : List RoomRec) (rid : String) : Option RoomRec :=
  store.find? (fun r => r.id == rid)

/-- The kinds of directed WebRTC signaling events relayed by the server. -/
inductive SigKind
  | offer
  | answer
  | ice
  deriving DecidableEq, Repr

/-- One observable emission of a handler, in program order: socket emits
(with the socket.io addressing used by the code) and calls into the room
store.  `userLeft`/`userJoined`/`signal` record a `socket.to(room).emit`
broadcast: delivered to every connected socket in io-room `room` other
than `except`.  `errorMsg`/`roomUsers` record a `socket.emit` to the
acting socket itself. -/
inductive Output
  | errorMsg (target : String) (message : String)
  | roomUsers (target : String) (users : List Participant)
  | userJoined (room : String) (except : String) (userName : String)
      (sid : String)
  | userLeft (room : String) (except : String) (sid : String)
      (userName : Option String)
  | gatewayUpdate (roomId : String) (participants : Nat)
  | gatewayDelete (roomId : String)
  | signal (kind : SigKind) (room : String) (except : String)
      (payload : String) (senderSid : String) (senderName : Option String)
  deriving DecidableEq, Repr

/-- The server's mutable state: `activeRooms` (`src/index.js:46`) and the
set of sockets the server has accepted (dead ones keep their records, with
`connected = false`, mirroring that the handler code never clears the
ad-hoc fields). -/
structure ServerState where
  activeRooms : List (String × List Participant)
  sockets : List Socket
  deriving DecidableEq, Repr

/-- The empty initial state. -/
def initState : ServerState := ⟨[], []⟩

/-- Look a socket record up by id. -/
def findSocket (st : ServerState) (sid : String) : Option Socket :=
  st.sockets.find? (fun s => s.sid == sid)

/-- Look a *connected* socket up by id (events other than `disconnect`
only arrive on live transports). -/
def findLive (st : ServerState) (sid : String) : Option Socket :=
  st.sockets.find? (fun s => s.sid == sid && s.connected)

/-- Transport accept: a fresh socket with no room and no user name. -/
def connectSocket (st : ServerState) (sid : String) : ServerState :=
  if (findSocket st sid).isSome then st
  else ⟨st.activeRooms, st.sockets ++ [⟨sid, true, none, none⟩]⟩

/-- The `// Leave any previous room` block of the join handler,
`src/index.js:66-79`: remove the socket from its previous room's user map,
delete the room when it empties, otherwise notify the room with
`user-left { socketId: socket.id }` (note: no user name and no room-store
call on this path). -/
def leavePrevious (reg : List (String × List Participant))
    (prev sid : String) : List (String × List Participant) × List Output :=
  if mapHas reg prev then
    let ps := (mapGet reg prev).getD []
    let ps' := usersDelete ps sid
    if ps'.length = 0 then (mapDelete reg prev, [])
    else (mapSet reg prev ps', [Output.userLeft prev sid sid none])
  else (reg, [])

/-- The body of the `if (socket.roomId && activeRooms.has(...))` block of
the disconnect handler, `src/index.js:160-179`: remove the socket from its
room's user map; if the room emptied, delete it from the registry and from
the room store; otherwise notify the room with
`user-left { socketId, userName }` and report the new occupancy. -/
def leaveOnDisconnect (reg : List (String × List Participant))
    (r sid : String) (uname : Option String) :
    List (String × List Participant) × List Output :=
  if mapHas reg r then
    let ps := (mapGet reg r).getD []
    let ps' := usersDelete ps sid
    if ps'.length = 0 then
      (mapDelete reg r, [Output.gatewayDelete r])
    else
      (mapSet reg r ps',
       [Output.userLeft r sid sid uname,
        Output.gatewayUpdate r ps'.length])
  else (reg, [])

/-- The field assignments `socket.roomId = roomId; socket.userName =
userName` of `src/index.js:83-84`, applied to the matching socket. -/
def joinSockUpd (sid roomId userName : String) (s : Socket) : Socket :=
  if s.sid == sid then
    { s with roomId := some roomId, userName := some userName }
  else s

/-- The socket.io transport effect of a close: the socket leaves all
io-rooms and is no longer live.  The handler's own code never clears the
ad-hoc `roomId` / `userName` fields, so they stay. -/
def markDisc (sid : String) (s : Socket) : Socket :=
  if s.sid == sid then { s with connected := false } else s

/-- The `join-room` handler, `src/index.js:54-113`.  `updateFails` models
whether the awaited `Room.findByIdAndUpdate` at line 105 throws; when it
does, control reaches the catch block at line 109, which logs and emits
`error { message: 'Failed to join room' }` — after the registry mutation
and the `room-users`/`user-joined` emits have already happened. -/
def joinRoom (store : List RoomRec) (updateFails : Bool) (st : ServerState)
    (sid roomId userName : String) : ServerState × List Output :=
  match findLive st sid with
  | none => (st, [])
  | some sock =>
    match findRoom store roomId with
    | none => (st, [Output.errorMsg sid "Room not found"])
    | some _ =>
      let pr := match sock.roomId with
        | none => (st.activeRooms, [])
        | some prev => leavePrevious st.activeRooms prev sid
      let reg2 := if mapHas pr.1 roomId then pr.1 else mapSet pr.1 roomId []
      let usersNew := usersSet ((mapGet reg2 roomId).getD [])
        ⟨sid, userName⟩
      let reg3 := mapSet reg2 roomId usersNew
      let tailOuts := if updateFails then
          [Output.errorMsg sid "Failed to join room"]
        else [Output.gatewayUpdate roomId usersNew.length]
      (⟨reg3, st.sockets.map (joinSockUpd sid roomId userName)⟩,
        pr.2 ++ [Output.roomUsers sid usersNew,
                 Output.userJoined roomId sid userName sid] ++ tailOuts)

/-- The `disconnect` handler, `src/index.js:156-181` (see
`leaveOnDisconnect`), combined with the transport-close effect on the
socket record (`markDisc`). -/
def disconnect (st : ServerState) (sid : String) :
    ServerState × List Output :=
  match findSocket st sid with
  | none => (st, [])
  | some sock =>
    let pr := match sock.roomId with
      | none => (st.activeRooms, [])
      | some r => leaveOnDisconnect st.activeRooms r sid sock.userName
    (⟨pr.1, st.sockets.map (markDisc sid)⟩, pr.2)

/-- The directed relay handlers `offer` / `answer` / `ice-candidate`,
`src/index.js:116-139`: `socket.to(targetSocketId).emit(...)` with no
membership or registry check; only the `offer` relay carries
`senderUserName: socket.userName`. -/
def signalHandler (k : SigKind) (st : ServerState)
    (sid target payload : String) : ServerState × List Output :=
  match findLive st sid with
  | none => (st, [])
  | some sock =>
    (st, [Output.signal k target sid payload sid
      (match k with
       | SigKind.offer => sock.userName
       | SigKind.answer => none
       | SigKind.ice => none)])

/-- socket.io delivery of `socket.to(room).emit` issued by `except`:
the connected sockets whose io-room set contains `room`.  Every connected
socket is in the io-room named by its own id, plus the room it joined via
`socket.join`; the sender itself is always excluded. -/
def receivers (st : ServerState) (room : String) (except : String) :
    List String :=
  (st.sockets.filter (fun s =>
    s.connected && s.sid != except &&
      (s.sid == room || s.roomId == some room))).map (fun s => s.sid)

/-- One inbound event.  A `join` op carries the room store's response data
(the store is an external oracle sampled at the time of the event) and
whether the subsequent occupancy write throws. -/
inductive Op
  | connect (sid : String)
  | join (store : List RoomRec) (updateFails : Bool)
      (sid roomId userName : String)
  | disconnect (sid : String)
  | signal (k : SigKind) (sid target payload : String)
  deriving DecidableEq, Repr

/-- Apply one event to the server state. -/
def stepOp (st : ServerState) : Op → ServerState
  | Op.connect sid => connectSocket st sid
  | Op.join store f sid r u => (joinRoom store f st sid r u).1
  | Op.disconnect sid => (disconnect st sid).1
  | Op.signal k sid t p => (signalHandler k st sid t p).1

/-- Run a sequence of events from the empty initial state. -/
def run (ops : List Op) : ServerState :=
  ops.foldl stepOp initState

/-! ### Basic lemmas about the embedded JS `Map` operations -/

theorem mapGet_nil {α : Type} (k : String) :
    mapGet ([] : List (String × α)) k = none := rfl

theorem mapGet_cons {α : Type} (e : String × α) (t : List (String × α))
    (k : String) :
    mapGet (e :: t) k = if e.1 = k then some e.2 else mapGet t k := by
  by_cases h : e.1 = k
  · rw [if_pos h]
    unfold mapGet
    rw [List.find?_cons_of_pos]
    all_goals simp [h]
  · rw [if_neg h]
    unfold mapGet
    rw [List.find?_cons_of_neg]
    all_goals simp [h]

theorem mapHas_cons {α : Type} (e : String × α) (t : List (String × α))
    (k : String) :
    mapHas (e :: t) k = (decide (e.1 = k) || mapHas t k) := by
  by_cases h : e.1 = k <;> simp [mapHas, h]

theorem mapHas_eq_isSome {α : Type} (m : List (String × α)) (k : String) :
    mapHas m k = (mapGet m k).isSome := by
  induction m with
  | nil => rfl
  | cons e t ih =>
    rw [mapHas_cons, mapGet_cons]
    by_cases h : e.1 = k <;> simp [h, ih]

theorem mapSet_cons_ne {α : Type} (e : String × α) (t : List (String × α))
    (k : String) (v : α) (h : e.1 ≠ k) :
    mapSet (e :: t) k v = e :: mapSet t k v := by
  unfold mapSet
  rw [mapHas_cons]
  by_cases ht : mapHas t k
  · simp [h, ht]
  · simp [h, ht]

theorem map_update_eq_self {α : Type} (t : List (String × α)) (k : String)
    (v : α) (h : mapHas t k = false) :
    (t.map fun e => if e.1 == k then (k, v) else e) = t := by
  induction t with
  | nil => rfl
  | cons e t ih =>
    rw [mapHas_cons] at h
    have he : e.1 ≠ k := by
      intro hh
      simp [hh] at h
    have ht : mapHas t k = false := by
      by_cases hb : mapHas t k
      · simp [hb] at h
      · simpa using hb
    rw [List.map_cons, ih ht]
    have hfe : (if e.1 == k then (k, v) else e) = e := by simp [he]
    rw [hfe]

theorem map_update_eq_mapSet {α : Type} (t : List (String × α)) (k : String)
    (v : α) (h : mapHas t k = true) :
    (t.map fun e => if e.1 == k then (k, v) else e) = mapSet t k v := by
  unfold mapSet
  rw [if_pos h]

theorem mapSet_cons_eq {α : Type} (e : String × α) (t : List (String × α))
    (k : String) (v : α) (h : e.1 = k) :
    mapSet (e :: t) k v =
      (k, v) :: (t.map fun e => if e.1 == k then (k, v) else e) := by
  unfold mapSet
  rw [mapHas_cons]
  have hc : (decide (e.1 = k) || mapHas t k) = true := by simp [h]
  rw [if_pos hc, List.map_cons]
  have hfe : (if e.1 == k then (k, v) else e) = (k, v) := by simp [h]
  rw [hfe]

theorem mapGet_set_self {α : Type} (m : List (String × α)) (k : String)
    (v : α) : mapGet (mapSet m k v) k = some v := by
  induction m with
  | nil => simp [mapSet, mapHas, mapGet, List.find?]
  | cons e t ih =>
    by_cases h : e.1 = k
    · rw [mapSet_cons_eq e t k v h, mapGet_cons]
      simp
    · rw [mapSet_cons_ne e t k v h, mapGet_cons, if_neg h]
      exact ih

theorem mapGet_set_ne {α : Type} (m : List (String × α)) (k k' : String)
    (v : α) (h : k' ≠ k) : mapGet (mapSet m k v) k' = mapGet m k' := by
  induction m with
  | nil =>
    simp only [mapSet, mapHas, List.any_nil, Bool.false_eq_true, if_false,
      List.nil_append]
    rw [mapGet_cons, if_neg (fun hh => h hh.symm)]
  | cons e t ih =>
    by_cases he : e.1 = k
    · rw [mapSet_cons_eq e t k v he, mapGet_cons, mapGet_cons]
      rw [if_neg (fun hh : k = k' => h hh.symm)]
      have : e.1 ≠ k' := by rw [he]; exact fun hh => h hh.symm
      rw [if_neg this]
      by_cases htk : mapHas t k
      · rw [map_update_eq_mapSet t k v htk, ih]
      · rw [map_update_eq_self t k v (by simpa using htk)]
    · rw [mapSet_cons_ne e t k v he, mapGet_cons, mapGet_cons]
      by_cases hek : e.1 = k'
      · simp [hek]
      · rw [if_neg hek, if_neg hek, ih]

theorem mapGet_delete_self {α : Type} (m : List (String × α)) (k : String) :
    mapGet (mapDelete m k) k = none := by
  induction m with
  | nil => rfl
  | cons e t ih =>
    unfold mapDelete at ih ⊢
    by_cases he : e.1 = k
    · rw [List.filter_cons_of_neg (by simp [he])]
      exact ih
    · rw [List.filter_cons_of_pos (by simp [he])]
      rw [mapGet_cons, if_neg he]
      exact ih

theorem mapGet_delete_ne {α : Type} (m : List (String × α)) (k k' : String)
    (h : k' ≠ k) : mapGet (mapDelete m k) k' = mapGet m k' := by
  induction m with
  | nil => rfl
  | cons e t ih =>
    unfold mapDelete at ih ⊢
    by_cases he : e.1 = k
    · rw [List.filter_cons_of_neg (by simp [he])]
      rw [ih, mapGet_cons, if_neg (by rw [he]; exact fun hh => h hh.symm)]
    · rw [List.filter_cons_of_pos (by simp [he])]
      rw [mapGet_cons, mapGet_cons, ih]

theorem mem_mapSet {α : Type} {m : List (String × α)} {k : String} {v : α}
    {e : String × α} (h : e ∈ mapSet m k v) :
    e = (k, v) ∨ (e ∈ m ∧ e.1 ≠ k) := by
  unfold mapSet at h
  by_cases hm : mapHas m k
  · rw [if_pos hm] at h
    rcases List.mem_map.1 h with ⟨a, ha, hae⟩
    by_cases hak : a.1 = k
    · left
      rw [← hae]
      simp [hak]
    · right
      have : e = a := by rw [← hae]; simp [hak]
      rw [this]
      exact ⟨ha, hak⟩
  · rw [if_neg hm] at h
    rcases List.mem_append.1 h with ha | ha
    · right
      refine ⟨ha, ?_⟩
      intro hek
      apply hm
      unfold mapHas
      rw [List.any_eq_true]
      exact ⟨e, ha, by simp [hek]⟩
    · left
      simpa using ha

theorem mem_mapSet_of_mem {α : Type} {m : List (String × α)} {k : String}
    {v : α} {e : String × α} (h : e ∈ m) (hne : e.1 ≠ k) :
    e ∈ mapSet m k v := by
  unfold mapSet
  by_cases hm : mapHas m k
  · rw [if_pos hm]
    apply List.mem_map.2
    refine ⟨e, h, ?_⟩
    simp [hne]
  · rw [if_neg hm]
    exact List.mem_append.2 (Or.inl h)

theorem mem_mapDelete {α : Type} {m : List (String × α)} {k : String}
    {e : String × α} (h : e ∈ mapDelete m k) : e ∈ m ∧ e.1 ≠ k := by
  unfold mapDelete at h
  have := List.mem_filter.1 h
  refine ⟨this.1, ?_⟩
  have hb := this.2
  simpa using hb

theorem keys_mapSet {α : Type} (m : List (String × α)) (k : String) (v : α)
    (h : (m.map Prod.fst).Nodup) :
    ((mapSet m k v).map Prod.fst).Nodup := by
  unfold mapSet
  by_cases hm : mapHas m k
  · rw [if_pos hm]
    have : (m.map fun e => if e.1 == k then (k, v) else e).map Prod.fst =
        m.map Prod.fst := by
      rw [List.map_map]
      apply List.map_congr_left
      intro a _
      by_cases hak : a.1 = k <;> simp [hak]
    rw [this]
    exact h
  · rw [if_neg hm, List.map_append]
    rw [List.nodup_append]
    refine ⟨h, List.nodup_singleton _, ?_⟩
    intro a ha hb
    simp only [List.map_cons, List.map_nil, List.mem_singleton] at hb
    apply hm
    unfold mapHas
    rw [List.any_eq_true]
    rcases List.mem_map.1 ha with ⟨e, he, hek⟩
    exact ⟨e, he, by simp [hek, hb]⟩

theorem keys_mapDelete {α : Type} (m : List (String × α)) (k : String)
    (h : (m.map Prod.fst).Nodup) :
    ((mapDelete m k).map Prod.fst).Nodup := by
  unfold mapDelete
  have : (m.filter fun e => e.1 != k).map Prod.fst =
      (m.map Prod.fst).filter (fun x => x != k) := by
    clear h
    induction m with
    | nil => rfl
    | cons e t ih =>
      by_cases he : e.1 = k
      · rw [List.filter_cons_of_neg (by simp [he]), List.map_cons,
          List.filter_cons_of_neg (by simp [he]), ih]
      · rw [List.filter_cons_of_pos (by simp [he]), List.map_cons,
          List.map_cons, List.filter_cons_of_pos (by simp [he]), ih]
  rw [this]
  exact List.Nodup.filter _ h

theorem mapSet_eq_self {α : Type} {m : List (String × α)} {k : String}
    {v : α} (hnd : (m.map Prod.fst).Nodup) (h : mapGet m k = some v) :
    mapSet m k v = m := by
  induction m with
  | nil => simp [mapGet] at h
  | cons e t ih =>
    rw [mapGet_cons] at h
    rw [List.map_cons, List.nodup_cons] at hnd
    by_cases he : e.1 = k
    · rw [if_pos he] at h
      have hv : e = (k, v) := by
        rcases e with ⟨e1, e2⟩
        simp at he h
        rw [he, h]
      have ht : mapHas t k = false := by
        by_cases hb : mapHas t k
        · exfalso
          apply hnd.1
          unfold mapHas at hb
          rw [List.any_eq_true] at hb
          rcases hb with ⟨a, ha, hak⟩
          rw [he]
          have : a.1 = k := by simpa using hak
          rw [← this]
          exact List.mem_map.2 ⟨a, ha, rfl⟩
        · simpa using hb
      rw [mapSet_cons_eq e t k v he, map_update_eq_self t k v ht, hv]
    · rw [if_neg he] at h
      rw [mapSet_cons_ne e t k v he, ih hnd.2 h]

theorem mapGet_mem {α : Type} {m : List (String × α)} {k : String} {v : α}
    (h : mapGet m k = some v) : (k, v) ∈ m := by
  induction m with
  | nil => simp [mapGet] at h
  | cons e t ih =>
    rw [mapGet_cons] at h
    by_cases he : e.1 = k
    · rw [if_pos he] at h
      have : e = (k, v) := by
        rcases e with ⟨e1, e2⟩
        simp at he h
        rw [he, h]
      rw [← this]
      exact List.mem_cons_self e t
    · rw [if_neg he] at h
      exact List.mem_cons_of_mem e (ih h)

/-! ### Lemmas about the per-room participant map -/

theorem usersHas_iff {ps : List Participant} {sid : String} :
    usersHas ps sid = true ↔ ∃ p ∈ ps, p.socketId = sid := by
  unfold usersHas
  rw [List.any_eq_true]
  constructor
  · rintro ⟨p, hp, hps⟩
    exact ⟨p, hp, by simpa using hps⟩
  · rintro ⟨p, hp, hps⟩
    exact ⟨p, hp, by simp [hps]⟩

theorem usersHas_false_iff {ps : List Participant} {sid : String} :
    usersHas ps sid = false ↔ ∀ p ∈ ps, p.socketId ≠ sid := by
  constructor
  · intro h p hp hps
    have : usersHas ps sid = true := usersHas_iff.2 ⟨p, hp, hps⟩
    rw [h] at this
    exact Bool.false_ne_true this
  · intro h
    by_cases hb : usersHas ps sid
    · rcases usersHas_iff.1 hb with ⟨p, hp, hps⟩
      exact absurd hps (h p hp)
    · simpa using hb

theorem mem_usersDelete {ps : List Participant} {sid : String}
    {p : Participant} (h : p ∈ usersDelete ps sid) :
    p ∈ ps ∧ p.socketId ≠ sid := by
  unfold usersDelete at h
  have := List.mem_filter.1 h
  exact ⟨this.1, by simpa using this.2⟩

theorem mem_usersDelete_of_mem {ps : List Participant} {sid : String}
    {p : Participant} (h : p ∈ ps) (hne : p.socketId ≠ sid) :
    p ∈ usersDelete ps sid := by
  unfold usersDelete
  exact List.mem_filter.2 ⟨h, by simp [hne]⟩

theorem usersDelete_eq_self {ps : List Participant} {sid : String}
    (h : usersHas ps sid = false) : usersDelete ps sid = ps := by
  unfold usersDelete
  apply List.filter_eq_self.2
  intro p hp
  simp [usersHas_false_iff.1 h p hp]

theorem usersDelete_nodup {ps : List Participant} {sid : String}
    (h : (ps.map Participant.socketId).Nodup) :
    ((usersDelete ps sid).map Participant.socketId).Nodup := by
  unfold usersDelete
  have : (ps.filter fun p => p.socketId != sid).map Participant.socketId =
      (ps.map Participant.socketId).filter (fun x => x != sid) := by
    clear h
    induction ps with
    | nil => rfl
    | cons q t ih =>
      by_cases hq : q.socketId = sid
      · rw [List.filter_cons_of_neg (by simp [hq]), List.map_cons,
          List.filter_cons_of_neg (by simp [hq]), ih]
      · rw [List.filter_cons_of_pos (by simp [hq]), List.map_cons,
          List.map_cons, List.filter_cons_of_pos (by simp [hq]), ih]
  rw [this]
  exact List.Nodup.filter _ h

theorem usersSet_fresh {ps : List Participant} {p : Participant}
    (h : usersHas ps p.socketId = false) : usersSet ps p = ps ++ [p] := by
  unfold usersSet
  rw [h]
  simp

theorem usersHas_usersSet_self (ps : List Participant) (p : Participant) :
    usersHas (usersSet ps p) p.socketId = true := by
  unfold usersSet
  by_cases h : usersHas ps p.socketId
  · rw [if_pos h]
    rcases usersHas_iff.1 h with ⟨q, hq, hqs⟩
    apply usersHas_iff.2
    refine ⟨p, ?_, rfl⟩
    apply List.mem_map.2
    exact ⟨q, hq, by simp [hqs]⟩
  · rw [if_neg h]
    apply usersHas_iff.2
    exact ⟨p, List.mem_append.2 (Or.inr (List.mem_singleton.2 rfl)), rfl⟩

theorem usersHas_append_left {ps qs : List Participant} {sid : String}
    (h : usersHas ps sid = true) : usersHas (ps ++ qs) sid = true := by
  rcases usersHas_iff.1 h with ⟨p, hp, hps⟩
  exact usersHas_iff.2 ⟨p, List.mem_append.2 (Or.inl hp), hps⟩

/-! ### Lemmas about socket lookup and update -/

theorem findSocket_spec {st : ServerState} {sid : String} {s : Socket}
    (h : findSocket st sid = some s) : s ∈ st.sockets ∧ s.sid = sid := by
  unfold findSocket at h
  refine ⟨List.mem_of_find?_eq_some h, ?_⟩
  have := List.find?_some h
  simpa using this

theorem findLive_spec {st : ServerState} {sid : String} {s : Socket}
    (h : findLive st sid = some s) :
    s ∈ st.sockets ∧ s.sid = sid ∧ s.connected = true := by
  unfold findLive at h
  refine ⟨List.mem_of_find?_eq_some h, ?_⟩
  have := List.find?_some h
  simp at this
  exact this

theorem socket_unique {l : List Socket}
    (hnd : (l.map Socket.sid).Nodup) {s t : Socket} (hs : s ∈ l)
    (ht : t ∈ l) (hst : s.sid = t.sid) : s = t := by
  induction l with
  | nil => cases hs
  | cons a m ih =>
    rw [List.map_cons, List.nodup_cons] at hnd
    rcases List.mem_cons.1 hs with rfl | hs'
    · rcases List.mem_cons.1 ht with rfl | ht'
      · rfl
      · exfalso
        apply hnd.1
        rw [hst]
        exact List.mem_map.2 ⟨t, ht', rfl⟩
    · rcases List.mem_cons.1 ht with rfl | ht'
      · exfalso
        apply hnd.1
        rw [← hst]
        exact List.mem_map.2 ⟨s, hs', rfl⟩
      · exact ih hnd.2 hs' ht'

theorem sids_map_update (l : List Socket) (f : Socket → Socket)
    (hf : ∀ s, (f s).sid = s.sid) :
    (l.map f).map Socket.sid = l.map Socket.sid := by
  rw [List.map_map]
  apply List.map_congr_left
  intro a _
  exact hf a

/-! ### The registry effect of removing one socket from one room

Both removal sites (`src/index.js:69-78` inside the join handler and
`src/index.js:160-179` inside the disconnect handler) perform the same
registry mutation; only their emissions differ. -/

/-- Common registry effect of `roomUsers.delete(socket.id)` followed by
the empty-room check. -/
def removeReg (reg : List (String × List Participant)) (r sid : String) :
    List (String × List Participant) :=
  if mapHas reg r then
    let ps := (mapGet reg r).getD []
    let ps' := usersDelete ps sid
    if ps'.length = 0 then mapDelete reg r else mapSet reg r ps'
  else reg

theorem leavePrevious_fst (reg : List (String × List Participant))
    (prev sid : String) : (leavePrevious reg prev sid).1 =
      removeReg reg prev sid := by
  unfold leavePrevious removeReg
  by_cases h : mapHas reg prev
  · rw [if_pos h, if_pos h]
    by_cases h0 :
        (usersDelete ((mapGet reg prev).getD []) sid).length = 0
    · simp only [h0, if_pos]
    · simp only [if_neg h0]
  · rw [if_neg h, if_neg h]

theorem leaveOnDisconnect_fst (reg : List (String × List Participant))
    (r sid : String) (u : Option String) :
    (leaveOnDisconnect reg r sid u).1 = removeReg reg r sid := by
  unfold leaveOnDisconnect removeReg
  by_cases h : mapHas reg r
  · rw [if_pos h, if_pos h]
    by_cases h0 : (usersDelete ((mapGet reg r).getD []) sid).length = 0
    · simp only [h0, if_pos]
    · simp only [if_neg h0]
  · rw [if_neg h, if_neg h]

/-- What `removeReg` leaves at each key. -/
theorem removeReg_get (reg : List (String × List Participant))
    (r sid x : String) :
    mapGet (removeReg reg r sid) x =
      if x = r then
        match mapGet reg r with
        | none => none
        | some ps =>
          if (usersDelete ps sid).length = 0 then none
          else some (usersDelete ps sid)
      else mapGet reg x := by
  unfold removeReg
  by_cases h : mapHas reg r
  · have hsome := mapHas_eq_isSome reg r
    rw [h] at hsome
    cases hg : mapGet reg r with
    | none => rw [hg] at hsome; simp at hsome
    | some ps =>
      rw [if_pos h]
      simp only [hg, Option.getD_some]
      by_cases h0 : (usersDelete ps sid).length = 0
      · rw [if_pos h0]
        by_cases hx : x = r
        · rw [if_pos hx, hx, mapGet_delete_self, if_pos h0]
        · rw [if_neg hx, mapGet_delete_ne reg r x (by exact hx)]
      · rw [if_neg h0]
        by_cases hx : x = r
        · rw [if_pos hx, hx, mapGet_set_self, if_neg h0]
        · rw [if_neg hx, mapGet_set_ne reg r x _ (by exact hx)]
  · have hnone : mapGet reg r = none := by
      have hsome := mapHas_eq_isSome reg r
      rw [eq_false_of_ne_true h] at hsome
      cases hg : mapGet reg r
      · rfl
      · rw [hg] at hsome; simp at hsome
    rw [if_neg h]
    by_cases hx : x = r
    · rw [if_pos hx, hnone, hx, hnone]
    · rw [if_neg hx]

theorem removeReg_keys (reg : List (String × List Participant))
    (r sid : String) (h : (reg.map Prod.fst).Nodup) :
    ((removeReg reg r sid).map Prod.fst).Nodup := by
  unfold removeReg
  by_cases hm : mapHas reg r
  · rw [if_pos hm]
    by_cases h0 : (usersDelete ((mapGet reg r).getD []) sid).length = 0
    · rw [if_pos h0]; exact keys_mapDelete reg r h
    · rw [if_neg h0]; exact keys_mapSet reg r _ h
  · rw [if_neg hm]; exact h

/-- A socket id never survives its own deletion from a user map. -/
theorem usersDelete_gone (ps : List Participant) (sid : String) :
    usersHas (usersDelete ps sid) sid = false := by
  apply usersHas_false_iff.2
  intro p hp
  exact (mem_usersDelete hp).2

/-! ### Socket-update helpers -/

theorem markDisc_sid (sid : String) (s : Socket) :
    (markDisc sid s).sid = s.sid := by
  unfold markDisc
  by_cases h : s.sid = sid <;> simp [h]

theorem markDisc_of_ne {sid : String} {s : Socket} (h : s.sid ≠ sid) :
    markDisc sid s = s := by
  simp [markDisc, h]

theorem markDisc_of_eq {sid : String} {s : Socket} (h : s.sid = sid) :
    markDisc sid s = { s with connected := false } := by
  simp [markDisc, h]

theorem joinSockUpd_sid (sid roomId uname : String) (s : Socket) :
    (joinSockUpd sid roomId uname s).sid = s.sid := by
  unfold joinSockUpd
  by_cases h : s.sid = sid <;> simp [h]

theorem joinSockUpd_of_ne {sid roomId uname : String} {s : Socket}
    (h : s.sid ≠ sid) : joinSockUpd sid roomId uname s = s := by
  simp [joinSockUpd, h]

theorem joinSockUpd_of_eq {sid roomId uname : String} {s : Socket}
    (h : s.sid = sid) : joinSockUpd sid roomId uname s =
      { s with roomId := some roomId, userName := some uname } := by
  simp [joinSockUpd, h]

/-! ### The registry/socket consistency invariant -/

/-- The state invariant maintained by all handlers: socket ids are unique,
registry keys are unique, no registered room is empty, each room's user
map has unique keys, every registered participant corresponds to a
connected socket whose `roomId` field names that room, and every
connected socket with a `roomId` field is registered in that room. -/
structure Inv (st : ServerState) : Prop where
  sidsNodup : (st.sockets.map Socket.sid).Nodup
  keysNodup : (st.activeRooms.map Prod.fst).Nodup
  roomsNonempty : ∀ r ps, mapGet st.activeRooms r = some ps → ps ≠ []
  roomsPsNodup : ∀ r ps, mapGet st.activeRooms r = some ps →
      (ps.map Participant.socketId).Nodup
  memberLive : ∀ r ps p, mapGet st.activeRooms r = some ps → p ∈ ps →
      ∃ s, s ∈ st.sockets ∧ s.sid = p.socketId ∧ s.connected = true ∧
        s.roomId = some r
  liveJoined : ∀ s, s ∈ st.sockets → s.connected = true →
      ∀ r, s.roomId = some r →
      ∃ ps, mapGet st.activeRooms r = some ps ∧ usersHas ps s.sid = true

theorem inv_init : Inv initState := by
  constructor
  · simp [initState]
  · simp [initState]
  · intro r ps h; simp [initState, mapGet] at h
  · intro r ps h; simp [initState, mapGet] at h
  · intro r ps p h; simp [initState, mapGet] at h
  · intro s hs; simp [initState] at hs

theorem inv_connect (st : ServerState) (sid : String) (hI : Inv st) :
    Inv (connectSocket st sid) := by
  unfold connectSocket
  by_cases h : (findSocket st sid).isSome
  · rw [if_pos h]; exact hI
  · rw [if_neg h]
    have hnone : findSocket st sid = none := by
      cases hfs : findSocket st sid with
      | none => rfl
      | some s => rw [hfs] at h; simp at h
    have hfresh : ∀ s ∈ st.sockets, s.sid ≠ sid := by
      intro s hs hss
      unfold findSocket at hnone
      have := List.find?_eq_none.1 hnone s hs
      simp [hss] at this
    constructor
    · rw [List.map_append, List.nodup_append]
      refine ⟨hI.sidsNodup, List.nodup_singleton _, ?_⟩
      intro a ha hb
      simp only [List.map_cons, List.map_nil, List.mem_singleton] at hb
      rcases List.mem_map.1 ha with ⟨s, hs, hsa⟩
      exact hfresh s hs (by rw [hsa, hb])
    · exact hI.keysNodup
    · exact hI.roomsNonempty
    · exact hI.roomsPsNodup
    · intro r ps p hget hp
      rcases hI.memberLive r ps p hget hp with ⟨s, hs, h1, h2, h3⟩
      exact ⟨s, List.mem_append.2 (Or.inl hs), h1, h2, h3⟩
    · intro s hs hconn r hr
      rcases List.mem_append.1 hs with hs' | hs'
      · exact hI.liveJoined s hs' hconn r hr
      · have : s = ⟨sid, true, none, none⟩ := by simpa using hs'
        rw [this] at hr
        simp at hr

theorem signalHandler_fst (k : SigKind) (st : ServerState)
    (sid t p : String) : (signalHandler k st sid t p).1 = st := by
  unfold signalHandler
  cases findLive st sid <;> rfl

theorem inv_signal (k : SigKind) (st : ServerState) (sid t p : String)
    (hI : Inv st) : Inv (signalHandler k st sid t p).1 := by
  rw [signalHandler_fst]
  exact hI

theorem disconnect_fst_nosock {st : ServerState} {sid : String}
    (hf : findSocket st sid = none) : disconnect st sid = (st, []) := by
  simp [disconnect, hf]

theorem disconnect_fst_none {st : ServerState} {sid : String}
    {sock : Socket} (hf : findSocket st sid = some sock)
    (hr : sock.roomId = none) : (disconnect st sid).1 =
      ⟨st.activeRooms, st.sockets.map (markDisc sid)⟩ := by
  simp [disconnect, hf, hr]

theorem disconnect_fst_some {st : ServerState} {sid r : String}
    {sock : Socket} (hf : findSocket st sid = some sock)
    (hr : sock.roomId = some r) : (disconnect st sid).1 =
      ⟨removeReg st.activeRooms r sid, st.sockets.map (markDisc sid)⟩ := by
  simp [disconnect, hf, hr, leaveOnDisconnect_fst]

theorem inv_disconnect (st : ServerState) (sid : String) (hI : Inv st) :
    Inv (disconnect st sid).1 := by
  cases hf : findSocket st sid with
  | none =>
    rw [disconnect_fst_nosock hf]
    exact hI
  | some sock =>
    obtain ⟨hmem, hsid⟩ := findSocket_spec hf
    have huniq : ∀ s ∈ st.sockets, s.sid = sid → s = sock :=
      fun s hs hss => socket_unique hI.sidsNodup hs hmem (by rw [hss, hsid])
    cases hr : sock.roomId with
    | none =>
      rw [disconnect_fst_none hf hr]
      constructor
      · rw [sids_map_update _ _ (markDisc_sid sid)]
        exact hI.sidsNodup
      · exact hI.keysNodup
      · exact hI.roomsNonempty
      · exact hI.roomsPsNodup
      · intro r ps p hget hp
        rcases hI.memberLive r ps p hget hp with ⟨s, hs, h1, h2, h3⟩
        have hne : s.sid ≠ sid := by
          intro hss
          rw [huniq s hs hss, hr] at h3
          exact Option.noConfusion h3
        refine ⟨s, ?_, h1, h2, h3⟩
        rw [show s = markDisc sid s from (markDisc_of_ne hne).symm]
        exact List.mem_map_of_mem _ hs
      · intro s' hs' hconn r' hr'
        rcases List.mem_map.1 hs' with ⟨s, hs, hfs⟩
        by_cases hss : s.sid = sid
        · have hs2 : s' = { s with connected := false } := by
            rw [← hfs, markDisc_of_eq hss]
          rw [hs2] at hconn
          simp at hconn
        · have hs2 : s' = s := by rw [← hfs, markDisc_of_ne hss]
          rw [hs2] at hconn hr' ⊢
          exact hI.liveJoined s hs hconn r' hr'
    | some r =>
      rw [disconnect_fst_some hf hr]
      constructor
      · rw [sids_map_update _ _ (markDisc_sid sid)]
        exact hI.sidsNodup
      · exact removeReg_keys _ r sid hI.keysNodup
      · intro x ps hget
        rw [removeReg_get] at hget
        by_cases hx : x = r
        · rw [if_pos hx] at hget
          cases hm : mapGet st.activeRooms r with
          | none => rw [hm] at hget; simp at hget
          | some ps0 =>
            rw [hm] at hget
            dsimp only at hget
            by_cases h0 : (usersDelete ps0 sid).length = 0
            · rw [if_pos h0] at hget; exact Option.noConfusion hget
            · rw [if_neg h0] at hget
              have hps := Option.some.inj hget
              rw [← hps]
              intro hnil
              apply h0
              rw [hnil]
              rfl
        · rw [if_neg hx] at hget
          exact hI.roomsNonempty x ps hget
      · intro x ps hget
        rw [removeReg_get] at hget
        by_cases hx : x = r
        · rw [if_pos hx] at hget
          cases hm : mapGet st.activeRooms r with
          | none => rw [hm] at hget; simp at hget
          | some ps0 =>
            rw [hm] at hget
            dsimp only at hget
            by_cases h0 : (usersDelete ps0 sid).length = 0
            · rw [if_pos h0] at hget; exact Option.noConfusion hget
            · rw [if_neg h0] at hget
              rw [← Option.some.inj hget]
              exact usersDelete_nodup (hI.roomsPsNodup r ps0 hm)
        · rw [if_neg hx] at hget
          exact hI.roomsPsNodup x ps hget
      · intro x ps p hget hp
        rw [removeReg_get] at hget
        by_cases hx : x = r
        · rw [if_pos hx] at hget
          cases hm : mapGet st.activeRooms r with
          | none => rw [hm] at hget; simp at hget
          | some ps0 =>
            rw [hm] at hget
            dsimp only at hget
            by_cases h0 : (usersDelete ps0 sid).length = 0
            · rw [if_pos h0] at hget; exact Option.noConfusion hget
            · rw [if_neg h0] at hget
              rw [← Option.some.inj hget] at hp
              obtain ⟨hp0, hpsid⟩ := mem_usersDelete hp
              rcases hI.memberLive r ps0 p hm hp0 with ⟨s, hs, h1, h2, h3⟩
              have hne : s.sid ≠ sid := by rw [h1]; exact hpsid
              refine ⟨s, ?_, h1, h2, by rw [h3, hx]⟩
              rw [show s = markDisc sid s from (markDisc_of_ne hne).symm]
              exact List.mem_map_of_mem _ hs
        · rw [if_neg hx] at hget
          rcases hI.memberLive x ps p hget hp with ⟨s, hs, h1, h2, h3⟩
          have hne : s.sid ≠ sid := by
            intro hss
            rw [huniq s hs hss, hr] at h3
            exact hx (Option.some.inj h3).symm
          refine ⟨s, ?_, h1, h2, h3⟩
          rw [show s = markDisc sid s from (markDisc_of_ne hne).symm]
          exact List.mem_map_of_mem _ hs
      · intro s' hs' hconn x hx'
        rcases List.mem_map.1 hs' with ⟨s, hs, hfs⟩
        by_cases hss : s.sid = sid
        · have hs2 : s' = { s with connected := false } := by
            rw [← hfs, markDisc_of_eq hss]
          rw [hs2] at hconn
          simp at hconn
        · have hs2 : s' = s := by rw [← hfs, markDisc_of_ne hss]
          rw [hs2] at hconn hx' ⊢
          rcases hI.liveJoined s hs hconn x hx' with ⟨ps, hm, hhas⟩
          rw [removeReg_get]
          by_cases hx : x = r
          · rw [if_pos hx, ← hx, hm]
            dsimp only
            rcases usersHas_iff.1 hhas with ⟨p, hp, hpsid⟩
            have hpd : p ∈ usersDelete ps sid :=
              mem_usersDelete_of_mem hp (by rw [hpsid]; exact hss)
            have h0 : ¬(usersDelete ps sid).length = 0 := by
              intro h0
              rw [List.length_eq_zero] at h0
              rw [h0] at hpd
              cases hpd
            rw [if_neg h0]
            exact ⟨usersDelete ps sid, rfl,
              usersHas_iff.2 ⟨p, hpd, hpsid⟩⟩
          · rw [if_neg hx]
            exact ⟨ps, hm, hhas⟩

theorem mapGet_none_of_has_false {α : Type} {m : List (String × α)}
    {k : String} (h : mapHas m k = false) : mapGet m k = none := by
  have hsome := mapHas_eq_isSome m k
  rw [h] at hsome
  cases hg : mapGet m k
  · rfl
  · rw [hg] at hsome; simp at hsome

theorem mapGet_some_of_has {α : Type} {m : List (String × α)} {k : String}
    (h : mapHas m k = true) : ∃ v, mapGet m k = some v := by
  have hsome := mapHas_eq_isSome m k
  rw [h] at hsome
  cases hg : mapGet m k with
  | none => rw [hg] at hsome; simp at hsome
  | some v => exact ⟨v, rfl⟩

/-- Registry after the `Leave any previous room` stage of a join
(`src/index.js:66-79`), as a function of the socket's previous room. -/
def joinRegA (reg : List (String × List Participant))
    (prevOpt : Option String) (sid : String) :
    List (String × List Participant) :=
  match prevOpt with
  | none => reg
  | some prev => removeReg reg prev sid

/-- Registry after the room-creation stage of a join
(`src/index.js:87-89`). -/
def joinReg2 (regA : List (String × List Participant)) (roomId : String) :
    List (String × List Participant) :=
  if mapHas regA roomId then regA else mapSet regA roomId []

theorem joinReg2_get_self (regA : List (String × List Participant))
    (roomId : String) : mapGet (joinReg2 regA roomId) roomId =
      some ((mapGet regA roomId).getD []) := by
  unfold joinReg2
  by_cases h : mapHas regA roomId
  · rw [if_pos h]
    rcases mapGet_some_of_has h with ⟨v, hv⟩
    rw [hv]
    rfl
  · rw [if_neg h, mapGet_set_self, mapGet_none_of_has_false (by simpa using h)]
    rfl

theorem joinReg2_get_ne (regA : List (String × List Participant))
    (roomId x : String) (hx : x ≠ roomId) :
    mapGet (joinReg2 regA roomId) x = mapGet regA x := by
  unfold joinReg2
  by_cases h : mapHas regA roomId
  · rw [if_pos h]
  · rw [if_neg h, mapGet_set_ne _ _ _ _ hx]

theorem joinReg2_keys (regA : List (String × List Participant))
    (roomId : String) (h : (regA.map Prod.fst).Nodup) :
    ((joinReg2 regA roomId).map Prod.fst).Nodup := by
  unfold joinReg2
  by_cases hm : mapHas regA roomId
  · rw [if_pos hm]; exact h
  · rw [if_neg hm]; exact keys_mapSet regA roomId [] h

theorem joinRoom_fst {store : List RoomRec} {f : Bool} {st : ServerState}
    {sid roomId uname : String} {sock : Socket} {rec : RoomRec}
    (hf : findLive st sid = some sock)
    (hroom : findRoom store roomId = some rec) :
    (joinRoom store f st sid roomId uname).1 =
      ⟨mapSet (joinReg2 (joinRegA st.activeRooms sock.roomId sid) roomId)
         roomId
         (usersSet ((mapGet (joinReg2 (joinRegA st.activeRooms sock.roomId
             sid) roomId) roomId).getD []) ⟨sid, uname⟩),
       st.sockets.map (joinSockUpd sid roomId uname)⟩ := by
  cases hprev : sock.roomId with
  | none => simp [joinRoom, hf, hroom, hprev, joinRegA, joinReg2]
  | some prev =>
    simp [joinRoom, hf, hroom, hprev, joinRegA, joinReg2,
      leavePrevious_fst]

theorem notin_ids_of_hasFalse {ps : List Participant} {sid : String}
    (h : usersHas ps sid = false) :
    sid ∉ ps.map Participant.socketId := by
  intro hmem
  rcases List.mem_map.1 hmem with ⟨p, hp, hps⟩
  exact usersHas_false_iff.1 h p hp hps

theorem nodup_ids_append_fresh {ps : List Participant} {sid u : String}
    (h : usersHas ps sid = false)
    (hnd : (ps.map Participant.socketId).Nodup) :
    (((ps ++ [(⟨sid, u⟩ : Participant)]).map Participant.socketId)).Nodup := by
  rw [List.map_append, List.nodup_append]
  refine ⟨hnd, by simp, ?_⟩
  intro a ha hb
  simp only [List.map_cons, List.map_nil, List.mem_singleton] at hb
  rw [hb] at ha
  exact notin_ids_of_hasFalse h ha

theorem inv_join (store : List RoomRec) (f : Bool) (st : ServerState)
    (sid roomId uname : String) (hI : Inv st) :
    Inv (joinRoom store f st sid roomId uname).1 := by
  cases hf : findLive st sid with
  | none =>
    rw [show (joinRoom store f st sid roomId uname).1 = st from by
      simp [joinRoom, hf]]
    exact hI
  | some sock =>
    cases hroom : findRoom store roomId with
    | none =>
      rw [show (joinRoom store f st sid roomId uname).1 = st from by
        simp [joinRoom, hf, hroom]]
      exact hI
    | some rec =>
      obtain ⟨hmem, hsid, hconn⟩ := findLive_spec hf
      have huniq : ∀ s ∈ st.sockets, s.sid = sid → s = sock :=
        fun s hs hss =>
          socket_unique hI.sidsNodup hs hmem (by rw [hss, hsid])
      have hA0 : ((joinRegA st.activeRooms sock.roomId sid).map
          Prod.fst).Nodup := by
        cases hprev : sock.roomId with
        | none => simpa [joinRegA] using hI.keysNodup
        | some prev =>
          simp only [joinRegA]
          exact removeReg_keys _ prev sid hI.keysNodup
      have hA1 : ∀ x ps,
          mapGet (joinRegA st.activeRooms sock.roomId sid) x = some ps →
          ps ≠ [] ∧ (ps.map Participant.socketId).Nodup := by
        cases hprev : sock.roomId with
        | none =>
          intro x ps hget
          simp only [joinRegA] at hget
          exact ⟨hI.roomsNonempty x ps hget, hI.roomsPsNodup x ps hget⟩
        | some prev =>
          intro x ps hget
          simp only [joinRegA] at hget
          rw [removeReg_get] at hget
          by_cases hx : x = prev
          · rw [if_pos hx] at hget
            cases hm : mapGet st.activeRooms prev with
            | none => rw [hm] at hget; simp at hget
            | some ps0 =>
              rw [hm] at hget
              dsimp only at hget
              by_cases h0 : (usersDelete ps0 sid).length = 0
              · rw [if_pos h0] at hget; exact absurd hget (by simp)
              · rw [if_neg h0] at hget
                rw [← Option.some.inj hget]
                constructor
                · intro hnil
                  apply h0
                  rw [hnil]
                  rfl
                · exact usersDelete_nodup (hI.roomsPsNodup prev ps0 hm)
          · rw [if_neg hx] at hget
            exact ⟨hI.roomsNonempty x ps hget, hI.roomsPsNodup x ps hget⟩
      have hA3 : ∀ x ps p,
          mapGet (joinRegA st.activeRooms sock.roomId sid) x = some ps →
          p ∈ ps → p.socketId ≠ sid ∧ ∃ s, s ∈ st.sockets ∧
            s.sid = p.socketId ∧ s.connected = true ∧
            s.roomId = some x := by
        cases hprev : sock.roomId with
        | none =>
          intro x ps p hget hp
          simp only [joinRegA] at hget
          rcases hI.memberLive x ps p hget hp with ⟨s, hs, h1, h2, h3⟩
          constructor
          · intro hps
            have := huniq s hs (by rw [h1, hps])
            rw [this, hprev] at h3
            exact Option.noConfusion h3
          · exact ⟨s, hs, h1, h2, h3⟩
        | some prev =>
          intro x ps p hget hp
          simp only [joinRegA] at hget
          rw [removeReg_get] at hget
          by_cases hx : x = prev
          · rw [if_pos hx] at hget
            cases hm : mapGet st.activeRooms prev with
            | none => rw [hm] at hget; simp at hget
            | some ps0 =>
              rw [hm] at hget
              dsimp only at hget
              by_cases h0 : (usersDelete ps0 sid).length = 0
              · rw [if_pos h0] at hget; exact absurd hget (by simp)
              · rw [if_neg h0] at hget
                rw [← Option.some.inj hget] at hp
                obtain ⟨hp0, hpsid⟩ := mem_usersDelete hp
                rcases hI.memberLive prev ps0 p hm hp0 with
                  ⟨s, hs, h1, h2, h3⟩
                exact ⟨hpsid, s, hs, h1, h2, by rw [h3, hx]⟩
          · rw [if_neg hx] at hget
            rcases hI.memberLive x ps p hget hp with ⟨s, hs, h1, h2, h3⟩
            constructor
            · intro hps
              have := huniq s hs (by rw [h1, hps])
              rw [this, hprev] at h3
              exact hx (Option.some.inj h3).symm
            · exact ⟨s, hs, h1, h2, h3⟩
      have hA4 : ∀ t, t ∈ st.sockets → t.connected = true → t.sid ≠ sid →
          ∀ x, t.roomId = some x →
          ∃ ps, mapGet (joinRegA st.activeRooms sock.roomId sid) x =
            some ps ∧ usersHas ps t.sid = true := by
        cases hprev : sock.roomId with
        | none =>
          intro t ht hc hts x hx
          simp only [joinRegA]
          exact hI.liveJoined t ht hc x hx
        | some prev =>
          intro t ht hc hts x hx
          simp only [joinRegA]
          rcases hI.liveJoined t ht hc x hx with ⟨ps, hm, hhas⟩
          rw [removeReg_get]
          by_cases hxp : x = prev
          · rw [if_pos hxp, ← hxp, hm]
            dsimp only
            rcases usersHas_iff.1 hhas with ⟨p, hp, hpsid⟩
            have hpd : p ∈ usersDelete ps sid :=
              mem_usersDelete_of_mem hp (by rw [hpsid]; exact hts)
            have h0 : ¬(usersDelete ps sid).length = 0 := by
              intro h0
              rw [List.length_eq_zero] at h0
              rw [h0] at hpd
              cases hpd
            rw [if_neg h0]
            exact ⟨usersDelete ps sid, rfl, usersHas_iff.2 ⟨p, hpd, hpsid⟩⟩
          · rw [if_neg hxp]
            exact ⟨ps, hm, hhas⟩
      have hBfresh : usersHas ((mapGet (joinReg2 (joinRegA st.activeRooms
          sock.roomId sid) roomId) roomId).getD []) sid = false := by
        rw [joinReg2_get_self]
        simp only [Option.getD_some]
        cases hg : mapGet (joinRegA st.activeRooms sock.roomId sid)
            roomId with
        | none => rfl
        | some ps =>
          simp only [Option.getD_some]
          apply usersHas_false_iff.2
          intro p hp
          exact (hA3 roomId ps p hg hp).1
      have husersNew : usersSet ((mapGet (joinReg2 (joinRegA
          st.activeRooms sock.roomId sid) roomId) roomId).getD [])
            ⟨sid, uname⟩ =
          ((mapGet (joinReg2 (joinRegA st.activeRooms sock.roomId sid)
            roomId) roomId).getD []) ++ [⟨sid, uname⟩] :=
        usersSet_fresh hBfresh
      rw [joinRoom_fst hf hroom, husersNew]
      constructor
      · rw [sids_map_update _ _ (joinSockUpd_sid sid roomId uname)]
        exact hI.sidsNodup
      · exact keys_mapSet _ roomId _ (joinReg2_keys _ roomId hA0)
      · intro x ps hget
        by_cases hx : x = roomId
        · rw [hx, mapGet_set_self] at hget
          rw [← Option.some.inj hget]
          simp
        · rw [mapGet_set_ne _ _ _ _ hx, joinReg2_get_ne _ _ _ hx] at hget
          exact (hA1 x ps hget).1
      · intro x ps hget
        by_cases hx : x = roomId
        · rw [hx, mapGet_set_self] at hget
          rw [← Option.some.inj hget]
          rw [joinReg2_get_self]
          simp only [Option.getD_some]
          cases hg : mapGet (joinRegA st.activeRooms sock.roomId sid)
              roomId with
          | none =>
            simp only [Option.getD_none]
            simp
          | some ps0 =>
            simp only [Option.getD_some]
            apply nodup_ids_append_fresh
            · apply usersHas_false_iff.2
              intro p hp
              exact (hA3 roomId ps0 p hg hp).1
            · exact (hA1 roomId ps0 hg).2
        · rw [mapGet_set_ne _ _ _ _ hx, joinReg2_get_ne _ _ _ hx] at hget
          exact (hA1 x ps hget).2
      · intro x ps p hget hp
        by_cases hx : x = roomId
        · rw [hx, mapGet_set_self] at hget
          rw [← Option.some.inj hget] at hp
          rcases List.mem_append.1 hp with hpB | hpNew
          · rw [joinReg2_get_self] at hpB
            simp only [Option.getD_some] at hpB
            cases hg : mapGet (joinRegA st.activeRooms sock.roomId sid)
                roomId with
            | none =>
              rw [hg] at hpB
              simp at hpB
            | some ps0 =>
              rw [hg] at hpB
              simp only [Option.getD_some] at hpB
              rcases hA3 roomId ps0 p hg hpB with ⟨hne, s, hs, h1, h2, h3⟩
              have hsne : s.sid ≠ sid := by rw [h1]; exact hne
              refine ⟨s, ?_, h1, h2, by rw [h3, hx]⟩
              rw [show s = joinSockUpd sid roomId uname s from
                (joinSockUpd_of_ne hsne).symm]
              exact List.mem_map_of_mem _ hs
          · have hpv : p = ⟨sid, uname⟩ := by simpa using hpNew
            refine ⟨joinSockUpd sid roomId uname sock,
              List.mem_map_of_mem _ hmem, ?_, ?_, ?_⟩
            · rw [joinSockUpd_of_eq hsid, hpv]
              exact hsid
            · rw [joinSockUpd_of_eq hsid]
              exact hconn
            · rw [joinSockUpd_of_eq hsid, hx]
        · rw [mapGet_set_ne _ _ _ _ hx, joinReg2_get_ne _ _ _ hx] at hget
          rcases hA3 x ps p hget hp with ⟨hne, s, hs, h1, h2, h3⟩
          have hsne : s.sid ≠ sid := by rw [h1]; exact hne
          refine ⟨s, ?_, h1, h2, h3⟩
          rw [show s = joinSockUpd sid roomId uname s from
            (joinSockUpd_of_ne hsne).symm]
          exact List.mem_map_of_mem _ hs
      · intro s' hs' hc x hx'
        rcases List.mem_map.1 hs' with ⟨s, hs, hfs⟩
        by_cases hss : s.sid = sid
        · have hsock : s = sock := huniq s hs hss
          have hs2 :
              s' = { sock with roomId := some roomId, userName := some uname } := by
            rw [← hfs, hsock, joinSockUpd_of_eq hsid]
          rw [hs2] at hx'
          simp only at hx'
          have hx : roomId = x := Option.some.inj hx'
          refine ⟨_, by rw [← hx, mapGet_set_self], ?_⟩
          rw [hs2]
          simp only
          apply usersHas_iff.2
          refine ⟨⟨sid, uname⟩, ?_, ?_⟩
          · exact List.mem_append.2 (Or.inr (by simp))
          · simpa using hsid.symm
        · have hs2 : s' = s := by rw [← hfs, joinSockUpd_of_ne hss]
          rw [hs2] at hc hx' ⊢
          rcases hA4 s hs hc hss x hx' with ⟨ps, hgA, hhas⟩
          by_cases hx : x = roomId
          · refine ⟨_, by rw [hx, mapGet_set_self], ?_⟩
            rw [joinReg2_get_self]
            simp only [Option.getD_some]
            rw [hx] at hgA
            rw [hgA]
            simp only [Option.getD_some]
            exact usersHas_append_left hhas
          · refine ⟨ps, ?_, hhas⟩
            rw [mapGet_set_ne _ _ _ _ hx, joinReg2_get_ne _ _ _ hx]
            exact hgA

theorem inv_step (st : ServerState) (op : Op) (hI : Inv st) :
    Inv (stepOp st op) := by
  cases op with
  | connect sid => exact inv_connect st sid hI
  | join store f sid r u => exact inv_join store f st sid r u hI
  | disconnect sid => exact inv_disconnect st sid hI
  | signal k sid t p => exact inv_signal k st sid t p hI

theorem inv_foldl (ops : List Op) (st : ServerState) (hI : Inv st) :
    Inv (ops.foldl stepOp st) := by
  induction ops generalizing st with
  | nil => exact hI
  | cons op t ih => exact ih (stepOp st op) (inv_step st op hI)

/-- Every state reachable from server start satisfies the invariant. -/
theorem inv_run (ops : List Op) : Inv (run ops) :=
  inv_foldl ops initState inv_init

/-! ### Output characterizations of the handlers -/

theorem leavePrevious_snd_last {reg : List (String × List Participant)}
    {prev sid : String} {ps : List Participant}
    (hm : mapGet reg prev = some ps) (h0 : usersDelete ps sid = []) :
    (leavePrevious reg prev sid).2 = [] := by
  have hhas : mapHas reg prev = true := by
    rw [mapHas_eq_isSome, hm]
    rfl
  simp [leavePrevious, hhas, hm, h0]

theorem leavePrevious_snd_notlast {reg : List (String × List Participant)}
    {prev sid : String} {ps : List Participant}
    (hm : mapGet reg prev = some ps) (h0 : usersDelete ps sid ≠ []) :
    (leavePrevious reg prev sid).2 =
      [Output.userLeft prev sid sid none] := by
  have hhas : mapHas reg prev = true := by
    rw [mapHas_eq_isSome, hm]
    rfl
  have hlen : ¬(usersDelete ps sid).length = 0 := by
    rw [List.length_eq_zero]
    exact h0
  simp [leavePrevious, hhas, hm, hlen]

theorem disconnect_eq_none {st : ServerState} {sid : String} {sock : Socket}
    (hf : findSocket st sid = some sock) (hr : sock.roomId = none) :
    disconnect st sid =
      (⟨st.activeRooms, st.sockets.map (markDisc sid)⟩, []) := by
  simp [disconnect, hf, hr]

theorem disconnect_eq_absent {st : ServerState} {sid r : String}
    {sock : Socket} (hf : findSocket st sid = some sock)
    (hr : sock.roomId = some r)
    (hhas : mapHas st.activeRooms r = false) :
    disconnect st sid =
      (⟨st.activeRooms, st.sockets.map (markDisc sid)⟩, []) := by
  simp [disconnect, hf, hr, leaveOnDisconnect, hhas]

theorem disconnect_eq_last {st : ServerState} {sid r : String}
    {sock : Socket} {ps : List Participant}
    (hf : findSocket st sid = some sock) (hr : sock.roomId = some r)
    (hm : mapGet st.activeRooms r = some ps)
    (h0 : usersDelete ps sid = []) :
    disconnect st sid =
      (⟨mapDelete st.activeRooms r, st.sockets.map (markDisc sid)⟩,
       [Output.gatewayDelete r]) := by
  have hhas : mapHas st.activeRooms r = true := by
    rw [mapHas_eq_isSome, hm]
    rfl
  simp [disconnect, hf, hr, leaveOnDisconnect, hhas, hm, h0]

theorem disconnect_eq_notlast {st : ServerState} {sid r : String}
    {sock : Socket} {ps : List Participant}
    (hf : findSocket st sid = some sock) (hr : sock.roomId = some r)
    (hm : mapGet st.activeRooms r = some ps)
    (h0 : usersDelete ps sid ≠ []) :
    disconnect st sid =
      (⟨mapSet st.activeRooms r (usersDelete ps sid),
        st.sockets.map (markDisc sid)⟩,
       [Output.userLeft r sid sid sock.userName,
        Output.gatewayUpdate r (usersDelete ps sid).length]) := by
  have hhas : mapHas st.activeRooms r = true := by
    rw [mapHas_eq_isSome, hm]
    rfl
  have hlen : ¬(usersDelete ps sid).length = 0 := by
    rw [List.length_eq_zero]
    exact h0
  simp [disconnect, hf, hr, leaveOnDisconnect, hhas, hm, hlen]

theorem joinRoom_snd {store : List RoomRec} {f : Bool} {st : ServerState}
    {sid roomId uname : String} {sock : Socket} {rec : RoomRec}
    (hf : findLive st sid = some sock)
    (hroom : findRoom store roomId = some rec) :
    (joinRoom store f st sid roomId uname).2 =
      (match sock.roomId with
        | none => ([] : List Output)
        | some prev => (leavePrevious st.activeRooms prev sid).2) ++
      [Output.roomUsers sid
         (usersSet ((mapGet (joinReg2 (joinRegA st.activeRooms sock.roomId
             sid) roomId) roomId).getD []) ⟨sid, uname⟩),
       Output.userJoined roomId sid uname sid] ++
      (if f then [Output.errorMsg sid "Failed to join room"]
       else [Output.gatewayUpdate roomId
         (usersSet ((mapGet (joinReg2 (joinRegA st.activeRooms sock.roomId
             sid) roomId) roomId).getD []) ⟨sid, uname⟩).length]) := by
  cases hprev : sock.roomId with
  | none => simp [joinRoom, hf, hroom, hprev, joinRegA, joinReg2]
  | some prev =>
    simp [joinRoom, hf, hroom, hprev, joinRegA, joinReg2,
      leavePrevious_fst]

/-- A `Map.set` always leaves the inserted record in the map. -/
theorem usersSet_mem_self (ps : List Participant) (p : Participant) :
    p ∈ usersSet ps p := by
  unfold usersSet
  by_cases h : usersHas ps p.socketId
  · rw [if_pos h]
    rcases usersHas_iff.1 h with ⟨q, hq, hqs⟩
    exact List.mem_map.2 ⟨q, hq, by simp [hqs]⟩
  · rw [if_neg h]
    exact List.mem_append.2 (Or.inr (by simp))

theorem find?_sid_map (l : List Socket) (f : Socket → Socket)
    (hp : ∀ s, (f s).sid = s.sid) (sid : String) :
    (l.map f).find? (fun s => s.sid == sid) =
      (l.find? (fun s => s.sid == sid)).map f := by
  induction l with
  | nil => rfl
  | cons a t ih =>
    rw [List.map_cons]
    by_cases h : a.sid = sid
    · rw [List.find?_cons_of_pos, List.find?_cons_of_pos]
      all_goals simp [h, hp]
    · rw [List.find?_cons_of_neg, List.find?_cons_of_neg]
      · exact ih
      all_goals simp [h, hp]

theorem markDisc_roomId (sid : String) (s : Socket) :
    (markDisc sid s).roomId = s.roomId := by
  unfold markDisc
  by_cases h : s.sid = sid <;> simp [h]

theorem markDisc_idem (sid : String) (s : Socket) :
    markDisc sid (markDisc sid s) = markDisc sid s := by
  unfold markDisc
  by_cases h : s.sid = sid <;> simp [h]

theorem map_markDisc_idem (l : List Socket) (sid : String) :
    (l.map (markDisc sid)).map (markDisc sid) = l.map (markDisc sid) := by
  rw [List.map_map]
  apply List.map_congr_left
  intro a _
  exact markDisc_idem sid a

/-! ### socket.io delivery facts -/

theorem receivers_mem {st : ServerState} {t : Socket}
    (ht : t ∈ st.sockets) (hc : t.connected = true)
    {room except : String} (hroom : t.sid = room ∨ t.roomId = some room)
    (hne : t.sid ≠ except) : t.sid ∈ receivers st room except := by
  unfold receivers
  apply List.mem_map.2
  refine ⟨t, List.mem_filter.2 ⟨ht, ?_⟩, rfl⟩
  rcases hroom with h | h
  · have hne2 : room ≠ except := h ▸ hne
    simp [hc, hne2, h]
  · simp [hc, hne, h]

theorem receivers_empty {st : ServerState} {room : String}
    (except : String)
    (h : ∀ t ∈ st.sockets, t.connected = true →
      t.sid ≠ room ∧ t.roomId ≠ some room) :
    receivers st room except = [] := by
  unfold receivers
  rw [List.map_eq_nil_iff, List.filter_eq_nil_iff]
  intro t ht
  by_cases hc : t.connected = true
  · rcases h t ht hc with ⟨h1, h2⟩
    simp [h1, h2, hc]
  · simp [Bool.eq_false_iff.2 hc]

/-! ### Claim theorems -/

/-- Claim C1, amended: the roster snapshot delivered to a successful
joiner (`room-users`) is the room's user map taken after the joiner's own
insert with no filtering (`src/index.js:90-96`), so it always contains
the joiner's own participant record — the claim that the joiner never
sees itself is false. -/
theorem claim1_roster_contains_joiner {store : List RoomRec} {f : Bool}
    {st : ServerState} {sid roomId uname : String} {sock : Socket}
    {rec : RoomRec} (hf : findLive st sid = some sock)
    (hroom : findRoom store roomId = some rec) :
    ∃ users, Output.roomUsers sid users ∈
        (joinRoom store f st sid roomId uname).2 ∧
      (⟨sid, uname⟩ : Participant) ∈ users := by
  refine ⟨usersSet ((mapGet (joinReg2 (joinRegA st.activeRooms
      sock.roomId sid) roomId) roomId).getD []) ⟨sid, uname⟩, ?_,
    usersSet_mem_self _ ⟨sid, uname⟩⟩
  rw [joinRoom_snd hf hroom]
  exact List.mem_append.2 (Or.inl (List.mem_append.2
    (Or.inr (List.mem_cons_self _ _))))

/-- Claim C1, counterexample: a fresh connection `a` joining room `r`
receives a `room-users` roster equal to `[{a, Alice}]`, which contains
its own record. -/
theorem claim1_counterexample :
    (joinRoom [⟨"r", true⟩] false (run [Op.connect "a"]) "a" "r"
        "Alice").2 =
      [Output.roomUsers "a" [⟨"a", "Alice"⟩],
       Output.userJoined "r" "a" "Alice" "a",
       Output.gatewayUpdate "r" 1] ∧
    (⟨"a", "Alice"⟩ : Participant) ∈
      [(⟨"a", "Alice"⟩ : Participant)] := by
  constructor
  · rfl
  · simp

theorem claim1_witness :
    findLive (run [Op.connect "a"]) "a" = some ⟨"a", true, none, none⟩ ∧
    findRoom [(⟨"r", true⟩ : RoomRec)] "r" = some ⟨"r", true⟩ ∧
    ∃ users, Output.roomUsers "a" users ∈
        (joinRoom [⟨"r", true⟩] false (run [Op.connect "a"]) "a" "r"
          "Alice").2 ∧
      (⟨"a", "Alice"⟩ : Participant) ∈ users :=
  ⟨by decide, by decide,
    @claim1_roster_contains_joiner [⟨"r", true⟩] false
      (run [Op.connect "a"]) "a" "r" "Alice" ⟨"a", true, none, none⟩
      ⟨"r", true⟩ (by decide) (by decide)⟩

/-- Claim C2: after any sequence of operations from server start, a room
identifier is present in `activeRooms` iff its participant set is
non-empty; the operation that removes the last participant deletes the
room entry within that same operation, so the equivalence holds at every
inter-operation point. -/
theorem claim2_registry_iff_nonempty (ops : List Op) (r : String) :
    mapHas (run ops).activeRooms r = true ↔
      ((mapGet (run ops).activeRooms r).getD []) ≠ [] := by
  constructor
  · intro h
    rcases mapGet_some_of_has h with ⟨ps, hps⟩
    rw [hps]
    simpa using (inv_run ops).roomsNonempty r ps hps
  · intro h
    by_cases hb : mapHas (run ops).activeRooms r = true
    · exact hb
    · exfalso
      apply h
      rw [mapGet_none_of_has_false (by simpa using hb)]
      rfl

theorem claim2_witness :
    mapHas (run [Op.connect "a",
        Op.join [⟨"x", true⟩] false "a" "x" "Alice"]).activeRooms "x" =
        true ↔
      ((mapGet (run [Op.connect "a",
        Op.join [⟨"x", true⟩] false "a" "x" "Alice"]).activeRooms
          "x").getD []) ≠ [] :=
  claim2_registry_iff_nonempty
    [Op.connect "a", Op.join [⟨"x", true⟩] false "a" "x" "Alice"] "x"

/-- Claim C3: in every reachable state a connection id lies in at most
one room's participant set, and for every connected socket the `roomId`
field names exactly the rooms whose participant set contains it (so a
room switch, which removes before inserting within one operation, never
leaves a connection in two rooms at an inter-operation point). -/
theorem claim3_at_most_one_room (ops : List Op) :
    (∀ sid r1 r2 ps1 ps2,
      mapGet (run ops).activeRooms r1 = some ps1 →
      usersHas ps1 sid = true →
      mapGet (run ops).activeRooms r2 = some ps2 →
      usersHas ps2 sid = true → r1 = r2) ∧
    (∀ s ∈ (run ops).sockets, s.connected = true → ∀ r,
      (s.roomId = some r ↔
        ∃ ps, mapGet (run ops).activeRooms r = some ps ∧
          usersHas ps s.sid = true)) := by
  have hI := inv_run ops
  constructor
  · intro sid r1 r2 ps1 ps2 h1 hh1 h2 hh2
    rcases usersHas_iff.1 hh1 with ⟨p1, hp1, hps1⟩
    rcases usersHas_iff.1 hh2 with ⟨p2, hp2, hps2⟩
    rcases hI.memberLive r1 ps1 p1 h1 hp1 with ⟨s1, hs1, e1, c1, m1⟩
    rcases hI.memberLive r2 ps2 p2 h2 hp2 with ⟨s2, hs2, e2, c2, m2⟩
    have hs12 : s1 = s2 :=
      socket_unique hI.sidsNodup hs1 hs2 (by rw [e1, e2, hps1, hps2])
    rw [hs12] at m1
    rw [m2] at m1
    exact (Option.some.inj m1).symm
  · intro s hs hc r
    constructor
    · intro hr
      exact hI.liveJoined s hs hc r hr
    · rintro ⟨ps, hget, hhas⟩
      rcases usersHas_iff.1 hhas with ⟨p, hp, hps⟩
      rcases hI.memberLive r ps p hget hp with ⟨t, ht, e1, c1, m1⟩
      have hts : t = s :=
        socket_unique hI.sidsNodup ht hs (by rw [e1, hps])
      rw [← hts]
      exact m1

theorem claim3_witness :
    mapGet (run [Op.connect "a", Op.connect "b",
        Op.join [⟨"x", true⟩] false "a" "x" "Alice",
        Op.join [⟨"x", true⟩] false "b" "x" "Bob"]).activeRooms "x" =
      some [⟨"a", "Alice"⟩, ⟨"b", "Bob"⟩] ∧
    usersHas [(⟨"a", "Alice"⟩ : Participant), ⟨"b", "Bob"⟩] "a" = true ∧
    "x" = "x" := by
  refine ⟨by decide, by decide, ?_⟩
  exact (claim3_at_most_one_room [Op.connect "a", Op.connect "b",
      Op.join [⟨"x", true⟩] false "a" "x" "Alice",
      Op.join [⟨"x", true⟩] false "b" "x" "Bob"]).1 "a" "x" "x"
    [⟨"a", "Alice"⟩, ⟨"b", "Bob"⟩] [⟨"a", "Alice"⟩, ⟨"b", "Bob"⟩]
    (by decide) (by decide) (by decide) (by decide)

/-- Claim C4, amended: a join whose room id is absent from the store is
rejected with a `Room not found` error to the requester only and no state
change; but a room that exists with `isActive = false` is NOT rejected —
`Room.findById` (`src/index.js:59`) ignores the `isActive` flag, so the
join proceeds and registers the participant. -/
theorem claim4_room_check :
    (∀ (store : List RoomRec) (f : Bool) (st : ServerState)
      (sid roomId uname : String) (sock : Socket),
      findLive st sid = some sock → findRoom store roomId = none →
      joinRoom store f st sid roomId uname =
        (st, [Output.errorMsg sid "Room not found"])) ∧
    (∀ (store : List RoomRec) (f : Bool) (st : ServerState)
      (sid roomId uname : String) (sock : Socket) (rec : RoomRec),
      findLive st sid = some sock → findRoom store roomId = some rec →
      rec.isActive = false →
      ∃ ps, mapGet (joinRoom store f st sid roomId
          uname).1.activeRooms roomId = some ps ∧
        usersHas ps sid = true) := by
  constructor
  · intro store f st sid roomId uname sock hf hroom
    simp [joinRoom, hf, hroom]
  · intro store f st sid roomId uname sock rec hf hroom hinact
    rw [joinRoom_fst hf hroom]
    refine ⟨_, mapGet_set_self _ _ _, ?_⟩
    exact usersHas_usersSet_self _ ⟨sid, uname⟩

/-- Claim C4, counterexample: joining a room whose stored record is
marked inactive succeeds — the registry is mutated and no
`Room not found` error is emitted — contradicting the claim that an
inactive room is rejected with no state change. -/
theorem claim4_counterexample :
    findRoom [(⟨"r", false⟩ : RoomRec)] "r" = some ⟨"r", false⟩ ∧
    (joinRoom [⟨"r", false⟩] false (run [Op.connect "a"]) "a" "r"
        "Alice").1 ≠ run [Op.connect "a"] ∧
    Output.errorMsg "a" "Room not found" ∉
      (joinRoom [⟨"r", false⟩] false (run [Op.connect "a"]) "a" "r"
        "Alice").2 := by
  refine ⟨by decide, by decide, by decide⟩

theorem claim4_witness :
    joinRoom [] false (run [Op.connect "a"]) "a" "r" "Alice" =
      (run [Op.connect "a"],
       [Output.errorMsg "a" "Room not found"]) ∧
    ∃ ps, mapGet (joinRoom [⟨"r", false⟩] false (run [Op.connect "a"])
        "a" "r" "Alice").1.activeRooms "r" = some ps ∧
      usersHas ps "a" = true :=
  ⟨claim4_room_check.1 [] false (run [Op.connect "a"]) "a" "r" "Alice"
     ⟨"a", true, none, none⟩ (by decide) (by decide),
   claim4_room_check.2 [⟨"r", false⟩] false (run [Op.connect "a"]) "a"
     "r" "Alice" ⟨"a", true, none, none⟩ ⟨"r", false⟩ (by decide)
     (by decide) (by decide)⟩

/-- Claim C5, amended: when a disconnect removes a room's last
participant the room is deleted from the registry and the store receives
exactly one delete signal (`Room.findByIdAndDelete`,
`src/index.js:164-167`); but when a room-switch removes a room's last
participant the room is deleted from the registry with NO signal to the
store at all — the previous-room block (`src/index.js:69-78`) makes no
store call. -/
theorem claim5_last_leave :
    (∀ (st : ServerState) (sid r : String) (sock : Socket)
      (ps : List Participant),
      findSocket st sid = some sock → sock.roomId = some r →
      mapGet st.activeRooms r = some ps → usersDelete ps sid = [] →
      (disconnect st sid).2 = [Output.gatewayDelete r] ∧
      mapGet (disconnect st sid).1.activeRooms r = none) ∧
    (∀ (store : List RoomRec) (st : ServerState)
      (sid roomId uname prev : String) (sock : Socket) (rec : RoomRec)
      (ps : List Participant),
      findLive st sid = some sock → sock.roomId = some prev →
      findRoom store roomId = some rec →
      mapGet st.activeRooms prev = some ps → usersDelete ps sid = [] →
      prev ≠ roomId →
      mapGet (joinRoom store false st sid roomId
          uname).1.activeRooms prev = none ∧
      Output.gatewayDelete prev ∉
        (joinRoom store false st sid roomId uname).2 ∧
      ∀ n, Output.gatewayUpdate prev n ∉
        (joinRoom store false st sid roomId uname).2) := by
  constructor
  · intro st sid r sock ps hf hr hm h0
    rw [disconnect_eq_last hf hr hm h0]
    exact ⟨rfl, mapGet_delete_self _ _⟩
  · intro store st sid roomId uname prev sock rec ps hf hprev hroom hm
      h0 hne
    refine ⟨?_, ?_, ?_⟩
    · rw [joinRoom_fst hf hroom]
      dsimp only
      rw [mapGet_set_ne _ _ _ _ hne, joinReg2_get_ne _ _ _ hne, hprev]
      simp only [joinRegA]
      rw [removeReg_get, if_pos rfl, hm]
      dsimp only
      rw [if_pos (by rw [h0]; rfl)]
    · rw [joinRoom_snd hf hroom, hprev]
      dsimp only
      rw [leavePrevious_snd_last hm h0]
      simp
    · intro n
      rw [joinRoom_snd hf hroom, hprev]
      dsimp only
      rw [leavePrevious_snd_last hm h0]
      simp [hne]

/-- Claim C5, counterexample: connection `a` is alone in room `x`; its
join of room `y` removes `x` from the registry, yet the emissions contain
no store delete and no store update for `x` — so the store does not
receive exactly one mark-inactive signal for `x` on this last-leave. -/
theorem claim5_counterexample :
    mapHas (run [Op.connect "a",
        Op.join [⟨"x", true⟩] false "a" "x" "Alice"]).activeRooms "x" =
      true ∧
    (joinRoom [⟨"y", true⟩] false (run [Op.connect "a",
        Op.join [⟨"x", true⟩] false "a" "x" "Alice"]) "a" "y"
        "Alice").2 =
      [Output.roomUsers "a" [⟨"a", "Alice"⟩],
       Output.userJoined "y" "a" "Alice" "a",
       Output.gatewayUpdate "y" 1] ∧
    mapGet (joinRoom [⟨"y", true⟩] false (run [Op.connect "a",
        Op.join [⟨"x", true⟩] false "a" "x" "Alice"]) "a" "y"
        "Alice").1.activeRooms "x" = none := by
  refine ⟨by decide, by decide, by decide⟩

theorem claim5_witness :
    ((disconnect (run [Op.connect "a",
        Op.join [⟨"x", true⟩] false "a" "x" "Alice"]) "a").2 =
      [Output.gatewayDelete "x"] ∧
     mapGet (disconnect (run [Op.connect "a",
        Op.join [⟨"x", true⟩] false "a" "x" "Alice"])
          "a").1.activeRooms "x" = none) ∧
    Output.gatewayDelete "x" ∉
      (joinRoom [⟨"y", true⟩] false (run [Op.connect "a",
        Op.join [⟨"x", true⟩] false "a" "x" "Alice"]) "a" "y"
        "Alice").2 ∧
    Output.gatewayUpdate "x" 1 ∉
      (joinRoom [⟨"y", true⟩] false (run [Op.connect "a",
        Op.join [⟨"x", true⟩] false "a" "x" "Alice"]) "a" "y"
        "Alice").2 := by
  refine ⟨claim5_last_leave.1 _ "a" "x" ⟨"a", true, some "x",
      some "Alice"⟩ [⟨"a", "Alice"⟩] (by decide) (by decide) (by decide)
      (by decide), ?_, ?_⟩
  · exact (claim5_last_leave.2 [⟨"y", true⟩] _ "a" "y" "Alice" "x"
      ⟨"a", true, some "x", some "Alice"⟩ ⟨"y", true⟩ [⟨"a", "Alice"⟩]
      (by decide) (by decide) (by decide) (by decide) (by decide)
      (by decide)).2.1
  · exact (claim5_last_leave.2 [⟨"y", true⟩] _ "a" "y" "Alice" "x"
      ⟨"a", true, some "x", some "Alice"⟩ ⟨"y", true⟩ [⟨"a", "Alice"⟩]
      (by decide) (by decide) (by decide) (by decide) (by decide)
      (by decide)).2.2 1

/-- Claim C6, amended: a disconnect-triggered leave that is not the last
notifies the room with `user-left { socketId, userName }` — both the id
and the display name — and every remaining participant is a recipient of
that broadcast; a switch-triggered leave (`src/index.js:76`) emits
`user-left { socketId }` carrying the connection id only, with no display
name. -/
theorem claim6_user_left_payload :
    (∀ (ops : List Op) (sid r u : String) (sock : Socket)
      (ps : List Participant),
      findSocket (run ops) sid = some sock → sock.roomId = some r →
      mapGet (run ops).activeRooms r = some ps →
      sock.userName = some u → usersDelete ps sid ≠ [] →
      (disconnect (run ops) sid).2 =
        [Output.userLeft r sid sid (some u),
         Output.gatewayUpdate r (usersDelete ps sid).length] ∧
      ∀ p ∈ usersDelete ps sid,
        p.socketId ∈ receivers (run ops) r sid) ∧
    (∀ (store : List RoomRec) (st : ServerState)
      (sid roomId uname prev : String) (sock : Socket) (rec : RoomRec)
      (ps : List Participant),
      findLive st sid = some sock → sock.roomId = some prev →
      findRoom store roomId = some rec →
      mapGet st.activeRooms prev = some ps → usersDelete ps sid ≠ [] →
      Output.userLeft prev sid sid none ∈
        (joinRoom store false st sid roomId uname).2) := by
  constructor
  · intro ops sid r u sock ps hf hr hm hu h0
    constructor
    · rw [disconnect_eq_notlast hf hr hm h0, hu]
    · intro p hp
      obtain ⟨hpps, hpne⟩ := mem_usersDelete hp
      rcases (inv_run ops).memberLive r ps p hm hpps with
        ⟨s, hs, h1, h2, h3⟩
      rw [← h1]
      exact receivers_mem hs h2 (Or.inr h3) (by rw [h1]; exact hpne)
  · intro store st sid roomId uname prev sock rec ps hf hprev hroom hm h0
    rw [joinRoom_snd hf hroom, hprev]
    dsimp only
    rw [leavePrevious_snd_notlast hm h0]
    simp

/-- Claim C6, counterexample: `a` and `b` share room `x`; `a` switches to
room `y`.  The remaining participant `b` is notified with
`user-left { socketId: "a" }` carrying no display name, so the claim that
every leave notification carries the display name is false. -/
theorem claim6_counterexample :
    (joinRoom [⟨"y", true⟩] false (run [Op.connect "a", Op.connect "b",
        Op.join [⟨"x", true⟩] false "a" "x" "Alice",
        Op.join [⟨"x", true⟩] false "b" "x" "Bob"]) "a" "y"
        "Alice").2 =
      [Output.userLeft "x" "a" "a" none,
       Output.roomUsers "a" [⟨"a", "Alice"⟩],
       Output.userJoined "y" "a" "Alice" "a",
       Output.gatewayUpdate "y" 1] ∧
    Output.userLeft "x" "a" "a" (some "Alice") ∉
      (joinRoom [⟨"y", true⟩] false (run [Op.connect "a", Op.connect "b",
        Op.join [⟨"x", true⟩] false "a" "x" "Alice",
        Op.join [⟨"x", true⟩] false "b" "x" "Bob"]) "a" "y"
        "Alice").2 ∧
    mapGet (run [Op.connect "a", Op.connect "b",
        Op.join [⟨"x", true⟩] false "a" "x" "Alice",
        Op.join [⟨"x", true⟩] false "b" "x" "Bob"]).activeRooms "x" =
      some [⟨"a", "Alice"⟩, ⟨"b", "Bob"⟩] := by
  refine ⟨by decide, by decide, by decide⟩

theorem claim6_witness :
    ((disconnect (run [Op.connect "a", Op.connect "b",
        Op.join [⟨"x", true⟩] false "a" "x" "Alice",
        Op.join [⟨"x", true⟩] false "b" "x" "Bob"]) "a").2 =
      [Output.userLeft "x" "a" "a" (some "Alice"),
       Output.gatewayUpdate "x" 1] ∧
     "b" ∈ receivers (run [Op.connect "a", Op.connect "b",
        Op.join [⟨"x", true⟩] false "a" "x" "Alice",
        Op.join [⟨"x", true⟩] false "b" "x" "Bob"]) "x" "a") ∧
    Output.userLeft "x" "a" "a" none ∈
      (joinRoom [⟨"y", true⟩] false (run [Op.connect "a",
        Op.connect "b",
        Op.join [⟨"x", true⟩] false "a" "x" "Alice",
        Op.join [⟨"x", true⟩] false "b" "x" "Bob"]) "a" "y"
        "Alice").2 := by
  have h := claim6_user_left_payload.1 [Op.connect "a", Op.connect "b",
      Op.join [⟨"x", true⟩] false "a" "x" "Alice",
      Op.join [⟨"x", true⟩] false "b" "x" "Bob"] "a" "x" "Alice"
    ⟨"a", true, some "x", some "Alice"⟩
    [⟨"a", "Alice"⟩, ⟨"b", "Bob"⟩] (by decide) (by decide) (by decide)
    (by decide) (by decide)
  refine ⟨⟨h.1, h.2 ⟨"b", "Bob"⟩ (by decide)⟩, ?_⟩
  exact claim6_user_left_payload.2 [⟨"y", true⟩] _ "a" "y" "Alice" "x"
    ⟨"a", true, some "x", some "Alice"⟩ ⟨"y", true⟩
    [⟨"a", "Alice"⟩, ⟨"b", "Bob"⟩] (by decide) (by decide) (by decide)
    (by decide) (by decide)

/-- Claim C7, amended: a second disconnect invocation for the same
connection never mutates the registry or the socket records and never
raises an error; it is a complete no-op when the connection held no room
or its former room is gone, but — because the handler never clears
`socket.roomId` (`src/index.js:156-181`) — when the former room still has
occupants it re-emits `user-left` and re-reports occupancy to the store
(see the counterexample), so it is not a full no-op. -/
theorem claim7_second_disconnect (ops : List Op) (sid : String) :
    (disconnect (disconnect (run ops) sid).1 sid).1 =
      (disconnect (run ops) sid).1 ∧
    ∀ o ∈ (disconnect (disconnect (run ops) sid).1 sid).2,
      ∀ t m, o ≠ Output.errorMsg t m := by
  have hI := inv_run ops
  have hI1 := inv_disconnect (run ops) sid hI
  cases hf : findSocket (run ops) sid with
  | none =>
    have hd := disconnect_fst_nosock hf
    rw [hd]
    dsimp only
    rw [hd]
    constructor
    · rfl
    · intro o ho t m
      simp at ho
  | some sock =>
    obtain ⟨hmem, hsid⟩ := findSocket_spec hf
    cases hr : sock.roomId with
    | none =>
      have hd1 := disconnect_eq_none hf hr
      rw [hd1]
      dsimp only
      have hf1 : findSocket (⟨(run ops).activeRooms,
          (run ops).sockets.map (markDisc sid)⟩ : ServerState) sid =
          some (markDisc sid sock) := by
        unfold findSocket
        dsimp only
        rw [find?_sid_map _ _ (fun s => markDisc_sid sid s) sid]
        unfold findSocket at hf
        rw [hf]
        rfl
      have hr1 : (markDisc sid sock).roomId = none := by
        rw [markDisc_roomId]
        exact hr
      rw [disconnect_eq_none hf1 hr1]
      dsimp only
      constructor
      · rw [map_markDisc_idem]
      · intro o ho t m
        simp at ho
    | some r =>
      have hd1 := disconnect_fst_some hf hr
      rw [hd1] at hI1 ⊢
      have hf1 : findSocket (⟨removeReg (run ops).activeRooms r sid,
          (run ops).sockets.map (markDisc sid)⟩ : ServerState) sid =
          some (markDisc sid sock) := by
        unfold findSocket
        dsimp only
        rw [find?_sid_map _ _ (fun s => markDisc_sid sid s) sid]
        unfold findSocket at hf
        rw [hf]
        rfl
      have hr1 : (markDisc sid sock).roomId = some r := by
        rw [markDisc_roomId]
        exact hr
      have hgone : ∀ x ps,
          mapGet (removeReg (run ops).activeRooms r sid) x = some ps →
          usersHas ps sid = false := by
        intro x ps hget
        rw [removeReg_get] at hget
        by_cases hx : x = r
        · rw [if_pos hx] at hget
          cases hm : mapGet (run ops).activeRooms r with
          | none => rw [hm] at hget; simp at hget
          | some ps0 =>
            rw [hm] at hget
            dsimp only at hget
            by_cases h0 : (usersDelete ps0 sid).length = 0
            · rw [if_pos h0] at hget
              exact absurd hget (by simp)
            · rw [if_neg h0] at hget
              rw [← Option.some.inj hget]
              exact usersDelete_gone ps0 sid
        · rw [if_neg hx] at hget
          apply usersHas_false_iff.2
          intro p hp hpsid
          rcases hI.memberLive x ps p hget hp with ⟨s, hs, h1, h2, h3⟩
          have hssock : s = sock :=
            socket_unique hI.sidsNodup hs hmem (by rw [h1, hpsid, hsid])
          rw [hssock, hr] at h3
          exact hx (Option.some.inj h3).symm
      by_cases hhas :
          mapHas (removeReg (run ops).activeRooms r sid) r = true
      · rcases mapGet_some_of_has hhas with ⟨ps1, hps1⟩
        have hfree : usersHas ps1 sid = false := hgone r ps1 hps1
        have hdel : usersDelete ps1 sid = ps1 := usersDelete_eq_self hfree
        have hne : ps1 ≠ [] := hI1.roomsNonempty r ps1 hps1
        have h0 : usersDelete ps1 sid ≠ [] := by
          rw [hdel]
          exact hne
        rw [disconnect_eq_notlast hf1 hr1 hps1 h0]
        dsimp only
        constructor
        · rw [hdel, map_markDisc_idem,
            mapSet_eq_self hI1.keysNodup hps1]
        · intro o ho t m
          simp only [List.mem_cons, List.not_mem_nil, or_false] at ho
          rcases ho with ho | ho <;>
            (rw [ho]; exact fun hcontra => Output.noConfusion hcontra)
      · have hhasf :
            mapHas (removeReg (run ops).activeRooms r sid) r = false := by
          simpa using hhas
        rw [disconnect_eq_absent hf1 hr1 hhasf]
        dsimp only
        constructor
        · rw [map_markDisc_idem]
        · intro o ho t m
          simp at ho

/-- Claim C7, counterexample: `a` and `b` share room `x`; after `a`'s
disconnect has already run, invoking the disconnect handler for `a` a
second time emits `user-left` to the room and a store occupancy update
again — it is not a no-op as the claim requires. -/
theorem claim7_counterexample :
    (disconnect (run [Op.connect "a", Op.connect "b",
        Op.join [⟨"x", true⟩] false "a" "x" "Alice",
        Op.join [⟨"x", true⟩] false "b" "x" "Bob",
        Op.disconnect "a"]) "a").2 =
      [Output.userLeft "x" "a" "a" (some "Alice"),
       Output.gatewayUpdate "x" 1] ∧
    (disconnect (run [Op.connect "a", Op.connect "b",
        Op.join [⟨"x", true⟩] false "a" "x" "Alice",
        Op.join [⟨"x", true⟩] false "b" "x" "Bob",
        Op.disconnect "a"]) "a").2 ≠ [] := by
  refine ⟨by decide, by decide⟩

theorem claim7_witness :
    Output.userLeft "x" "a" "a" (some "Alice") ∈
      (disconnect (disconnect (run [Op.connect "a", Op.connect "b",
        Op.join [⟨"x", true⟩] false "a" "x" "Alice",
        Op.join [⟨"x", true⟩] false "b" "x" "Bob"]) "a").1 "a").2 ∧
    (disconnect (disconnect (run [Op.connect "a", Op.connect "b",
        Op.join [⟨"x", true⟩] false "a" "x" "Alice",
        Op.join [⟨"x", true⟩] false "b" "x" "Bob"]) "a").1 "a").1 =
      (disconnect (run [Op.connect "a", Op.connect "b",
        Op.join [⟨"x", true⟩] false "a" "x" "Alice",
        Op.join [⟨"x", true⟩] false "b" "x" "Bob"]) "a").1 ∧
    Output.userLeft "x" "a" "a" (some "Alice") ≠
      Output.errorMsg "a" "boom" :=
  ⟨by decide,
   (claim7_second_disconnect [Op.connect "a", Op.connect "b",
      Op.join [⟨"x", true⟩] false "a" "x" "Alice",
      Op.join [⟨"x", true⟩] false "b" "x" "Bob"] "a").1,
   (claim7_second_disconnect [Op.connect "a", Op.connect "b",
      Op.join [⟨"x", true⟩] false "a" "x" "Alice",
      Op.join [⟨"x", true⟩] false "b" "x" "Bob"] "a").2
     (Output.userLeft "x" "a" "a" (some "Alice")) (by decide) "a" "boom"⟩

/-- Claim C8, amended: when the post-join occupancy write
(`Room.findByIdAndUpdate`, `src/index.js:105`) throws, the in-memory
membership change is kept (the final state equals the success-case state
and the joiner is registered) — but the catch block (`src/index.js:111`)
additionally emits `error { message: 'Failed to join room' }` to the
joining connection, so the failure IS reported to the joiner, not merely
logged. -/
theorem claim8_update_failure :
    ∀ (store : List RoomRec) (st : ServerState)
      (sid roomId uname : String) (sock : Socket) (rec : RoomRec),
      findLive st sid = some sock → findRoom store roomId = some rec →
      (joinRoom store true st sid roomId uname).1 =
        (joinRoom store false st sid roomId uname).1 ∧
      (∃ ps, mapGet (joinRoom store true st sid roomId
          uname).1.activeRooms roomId = some ps ∧
        usersHas ps sid = true) ∧
      Output.errorMsg sid "Failed to join room" ∈
        (joinRoom store true st sid roomId uname).2 := by
  intro store st sid roomId uname sock rec hf hroom
  refine ⟨?_, ?_, ?_⟩
  · rw [joinRoom_fst hf hroom, joinRoom_fst hf hroom]
  · rw [joinRoom_fst hf hroom]
    exact ⟨_, mapGet_set_self _ _ _,
      usersHas_usersSet_self _ ⟨sid, uname⟩⟩
  · rw [joinRoom_snd hf hroom]
    simp

/-- Claim C8, counterexample: with the occupancy write throwing, the
joiner `a` is left registered in room `r` but also receives
`error { message: 'Failed to join room' }` — contradicting the claim
that the failure is only logged and not reported to the joiner. -/
theorem claim8_counterexample :
    (joinRoom [⟨"r", true⟩] true (run [Op.connect "a"]) "a" "r"
        "Alice").2 =
      [Output.roomUsers "a" [⟨"a", "Alice"⟩],
       Output.userJoined "r" "a" "Alice" "a",
       Output.errorMsg "a" "Failed to join room"] ∧
    mapGet (joinRoom [⟨"r", true⟩] true (run [Op.connect "a"]) "a" "r"
        "Alice").1.activeRooms "r" = some [⟨"a", "Alice"⟩] := by
  refine ⟨by decide, by decide⟩

theorem claim8_witness :
    (joinRoom [⟨"r", true⟩] true (run [Op.connect "a"]) "a" "r"
        "Alice").1 =
      (joinRoom [⟨"r", true⟩] false (run [Op.connect "a"]) "a" "r"
        "Alice").1 ∧
    (∃ ps, mapGet (joinRoom [⟨"r", true⟩] true (run [Op.connect "a"])
        "a" "r" "Alice").1.activeRooms "r" = some ps ∧
      usersHas ps "a" = true) ∧
    Output.errorMsg "a" "Failed to join room" ∈
      (joinRoom [⟨"r", true⟩] true (run [Op.connect "a"]) "a" "r"
        "Alice").2 :=
  claim8_update_failure [⟨"r", true⟩] (run [Op.connect "a"]) "a" "r"
    "Alice" ⟨"a", true, none, none⟩ ⟨"r", true⟩ (by decide) (by decide)

/-- Claim C9, amended: a directed relay from a live sender emits exactly
one forwarded event carrying the payload verbatim and the sender's id
(plus the sender's display name for `offer` only), and never an error to
the sender; a live target distinct from the sender receives it, and if no
live connection is named by the target id and none has joined a room of
that name, nobody receives it.  Because `socket.to` excludes the sender,
a self-targeted relay is delivered to nobody even though the target is
live, and a target id that coincides with an occupied room name reaches
that room's occupants even though no such connection is live — the claim
as stated is false on both points. -/
theorem claim9_directed_relay :
    (∀ (k : SigKind) (st : ServerState) (sid target payload : String)
      (sock : Socket), findLive st sid = some sock →
      signalHandler k st sid target payload =
        (st, [Output.signal k target sid payload sid
          (match k with
           | SigKind.offer => sock.userName
           | SigKind.answer => none
           | SigKind.ice => none)])) ∧
    (∀ (st : ServerState) (sid target : String) (t : Socket),
      t ∈ st.sockets → t.connected = true → t.sid = target →
      target ≠ sid → target ∈ receivers st target sid) ∧
    (∀ (st : ServerState) (sid target : String),
      (∀ t ∈ st.sockets, t.connected = true →
        t.sid ≠ target ∧ t.roomId ≠ some target) →
      receivers st target sid = []) ∧
    (∀ (k : SigKind) (st : ServerState)
      (sid target payload m : String),
      Output.errorMsg sid m ∉ (signalHandler k st sid target
        payload).2) := by
  refine ⟨?_, ?_, ?_, ?_⟩
  · intro k st sid target payload sock hf
    simp [signalHandler, hf]
  · intro st sid target t ht hc hts hne
    rw [← hts]
    exact receivers_mem ht hc (Or.inl rfl) (by rw [hts]; exact hne)
  · intro st sid target h
    exact receivers_empty sid h
  · intro k st sid target payload m
    cases hf : findLive st sid with
    | none => simp [signalHandler, hf]
    | some sock => simp [signalHandler, hf]

/-- Claim C9, counterexample: (i) a live connection `a` relaying to its
own id delivers to nobody, although the target is live; (ii) relaying to
the id `b`, which names no live connection but is the name of a room
occupied by `c`, delivers to `c`, although the target is not live. -/
theorem claim9_counterexample :
    (findLive (run [Op.connect "a"]) "a").isSome = true ∧
    receivers (run [Op.connect "a"]) "a" "a" = [] ∧
    findLive (run [Op.connect "c",
        Op.join [⟨"b", true⟩] false "c" "b" "Carol",
        Op.connect "a"]) "b" = none ∧
    receivers (run [Op.connect "c",
        Op.join [⟨"b", true⟩] false "c" "b" "Carol",
        Op.connect "a"]) "b" "a" = ["c"] := by
  refine ⟨by decide, by decide, by decide, by decide⟩

theorem claim9_witness :
    signalHandler SigKind.answer (run [Op.connect "a", Op.connect "b"])
        "a" "b" "payload" =
      (run [Op.connect "a", Op.connect "b"],
       [Output.signal SigKind.answer "b" "a" "payload" "a" none]) ∧
    "b" ∈ receivers (run [Op.connect "a", Op.connect "b"]) "b" "a" ∧
    receivers (run [Op.connect "a"]) "z" "a" = [] ∧
    Output.errorMsg "a" "boom" ∉
      (signalHandler SigKind.answer (run [Op.connect "a",
        Op.connect "b"]) "a" "b" "payload").2 :=
  ⟨claim9_directed_relay.1 SigKind.answer
     (run [Op.connect "a", Op.connect "b"]) "a" "b" "payload"
     ⟨"a", true, none, none⟩ (by decide),
   claim9_directed_relay.2.1 (run [Op.connect "a", Op.connect "b"]) "a"
     "b" ⟨"b", true, none, none⟩ (by decide) (by decide) (by decide)
     (by decide),
   claim9_directed_relay.2.2.1 (run [Op.connect "a"]) "a" "z"
     (by decide),
   claim9_directed_relay.2.2.2 SigKind.answer
     (run [Op.connect "a", Op.connect "b"]) "a" "b" "payload" "boom"⟩

/-- Claim C10: the directed relay handlers perform no membership or
registry check — under no hypothesis about the sender's room, the
target's room, or the registry, a live sender's relay emits the forwarded
event and a live target distinct from the sender receives it; a sender
that never joined a room is relayed exactly like a co-room participant
(the `offer` name tag is just its unset display name). -/
theorem claim10_relay_unchecked :
    ∀ (k : SigKind) (st : ServerState) (sid target payload : String)
      (sock t : Socket),
      findLive st sid = some sock → t ∈ st.sockets →
      t.connected = true → t.sid = target → target ≠ sid →
      (signalHandler k st sid target payload).2 =
        [Output.signal k target sid payload sid
          (match k with
           | SigKind.offer => sock.userName
           | SigKind.answer => none
           | SigKind.ice => none)] ∧
      target ∈ receivers st target sid := by
  intro k st sid target payload sock t hf ht hc hts hne
  constructor
  · simp [signalHandler, hf]
  · rw [← hts]
    exact receivers_mem ht hc (Or.inl rfl) (by rw [hts]; exact hne)

theorem claim10_witness :
    (signalHandler SigKind.ice (run [Op.connect "a", Op.connect "c",
        Op.join [⟨"b", true⟩] false "c" "b" "Carol"]) "a" "c" "p").2 =
      [Output.signal SigKind.ice "c" "a" "p" "a" none] ∧
    "c" ∈ receivers (run [Op.connect "a", Op.connect "c",
        Op.join [⟨"b", true⟩] false "c" "b" "Carol"]) "c" "a" :=
  claim10_relay_unchecked SigKind.ice
    (run [Op.connect "a", Op.connect "c",
      Op.join [⟨"b", true⟩] false "c" "b" "Carol"]) "a" "c" "p"
    ⟨"a", true, none, none⟩ ⟨"c", true, some "b", some "Carol"⟩
    (by decide) (by decide) (by decide) (by decide) (by decide)

end VC
